import Mathlib

/-!
Verification of the arbitrage-bot core against its specification.

The development shallowly embeds the TypeScript services of the repository:

* PriceService (price store, history ring, staleness predicate),
* ArbitrageService (spread computation, validation, cooldown gating,
  open/update/close lifecycle, alert queue),
* BinanceService (ticker frame parsing and delivery),
* ExchangeService (common-USDT-pair discovery).

Modelling conventions, used consistently below:

* A JavaScript number that can be NaN is modelled as `Option ℚ`, with `none`
  standing for NaN (the only non-finite value producible by the relevant
  code paths, via parseFloat); finite values are exact rationals.
* A JavaScript `Map` is modelled as an insertion-ordered association list:
  `set` overwrites in place when the key exists and appends otherwise,
  `delete` removes the key, iteration follows the list order.  These are
  exactly the semantics guaranteed for `Map`.
* `Array.prototype.sort` (guaranteed stable) is modelled by a stable
  insertion sort `sSort`; string comparison follows the default comparator
  (code-unit order, which agrees with codepoint order on the identifiers
  appearing here).
* Timestamps (`Date.now()`) are integers (milliseconds).
-/

namespace FAB

/-! ## JavaScript Map primitives (insertion-ordered association lists) -/

/-- Lookup in a JS Map: value of the first (only) entry with the key. -/
def mapGet (m : List (String × α)) (k : String) : Option α :=
  (m.find? (fun p => p.1 == k)).map (·.2)

/-- JS Map.set: overwrite in place if the key is present, else append. -/
def mapSet (m : List (String × α)) (k : String) (v : α) : List (String × α) :=
  match m with
  | [] => [(k, v)]
  | p :: rest => if p.1 = k then (k, v) :: rest else p :: mapSet rest k v

/-- JS Map.delete: remove the entry with the key. -/
def mapDelete (m : List (String × α)) (k : String) : List (String × α) :=
  m.filter (fun p => p.1 ≠ k)

theorem mapGet_mapSet_self (m : List (String × α)) (k : String) (v : α) :
    mapGet (mapSet m k v) k = some v := by
  induction m with
  | nil => simp [mapGet, mapSet]
  | cons p rest ih =>
    by_cases h : p.1 = k
    · simp [mapGet, mapSet, h]
    · simpa [mapGet, mapSet, h] using ih

theorem mapGet_mapSet_ne (m : List (String × α)) (k k' : String) (v : α)
    (h : k ≠ k') : mapGet (mapSet m k v) k' = mapGet m k' := by
  have hb : (k == k') = false := by simpa using h
  induction m with
  | nil => simp [mapGet, mapSet, List.find?, hb]
  | cons p rest ih =>
    by_cases hp : p.1 = k
    · subst hp
      simp [mapGet, mapSet, List.find?_cons, hb]
    · by_cases hq : (p.1 == k') = true
      · simp [mapGet, mapSet, hp, List.find?_cons, hq]
      · have hq' : (p.1 == k') = false := by simpa using hq
        simpa [mapGet, mapSet, hp, List.find?_cons, hq'] using ih

/-! ## String comparison as in the JS default sort comparator -/

/-- Lexicographic comparison of character lists by codepoint. -/
def jsltChars : List Char → List Char → Bool
  | [], [] => false
  | [], _ :: _ => true
  | _ :: _, [] => false
  | c :: cs, d :: ds => if c < d then true else if d < c then false else jsltChars cs ds

/-- String comparison used by the default Array.prototype.sort comparator. -/
def jsStrLt (a b : String) : Bool := jsltChars a.data b.data

theorem jsltChars_asymm {a b : List Char} (h : jsltChars a b = true) :
    jsltChars b a = false := by
  induction a generalizing b with
  | nil =>
    cases b with
    | nil => simp [jsltChars] at h
    | cons d ds => simp [jsltChars]
  | cons c cs ih =>
    cases b with
    | nil => simp [jsltChars] at h
    | cons d ds =>
      by_cases h1 : c < d
      · have h2 : ¬ d < c := lt_asymm h1
        simp [jsltChars, h1, h2]
      · by_cases h2 : d < c
        · simp [jsltChars, h1, h2] at h
        · simp only [jsltChars, if_neg h1, if_neg h2] at h
          simp only [jsltChars, if_neg h2, if_neg h1]
          exact ih h

theorem jsltChars_eq_of_not {a b : List Char} (h1 : jsltChars a b = false)
    (h2 : jsltChars b a = false) : a = b := by
  induction a generalizing b with
  | nil =>
    cases b with
    | nil => rfl
    | cons d ds => simp [jsltChars] at h1
  | cons c cs ih =>
    cases b with
    | nil => simp [jsltChars] at h2
    | cons d ds =>
      by_cases hc : c < d
      · simp [jsltChars, hc] at h1
      · by_cases hd : d < c
        · simp [jsltChars, hd, lt_asymm hd] at h2
        · have : c = d := le_antisymm (le_of_not_lt hd) (le_of_not_lt hc)
          subst this
          simp only [jsltChars, if_neg hc, if_neg hd] at h1 h2
          rw [ih h1 h2]

theorem jsStrLt_asymm {a b : String} (h : jsStrLt a b = true) :
    jsStrLt b a = false := jsltChars_asymm h

theorem jsStrLt_eq_of_not {a b : String} (h1 : jsStrLt a b = false)
    (h2 : jsStrLt b a = false) : a = b :=
  String.ext (jsltChars_eq_of_not h1 h2)

/-! ## Price data and the PriceService (src price.service, part_002) -/

/-- Normalized price record delivered by the adapters (common/types PriceData).
The optional volume, high and low fields are carried opaquely by the source
and never consulted by the code under verification, so they are omitted. -/
structure PriceData where
  symbol : String
  exchange : String
  price : Option ℚ
  timestamp : ℤ
deriving DecidableEq, Repr

/-- State of PriceService: the latest-price map and the history map. -/
structure PriceState where
  priceStore : List (String × PriceData)
  priceHistory : List (String × List PriceData)
deriving DecidableEq, Repr

def emptyPriceState : PriceState := ⟨[], []⟩

/-- Maximum history entries per key (PriceService.maxHistorySize). -/
def priceMaxHistorySize : ℕ := 100

/-- Key construction of PriceService.getPriceKey. -/
def getPriceKey (symbol exchange : String) : String :=
  symbol ++ "-" ++ exchange

/-- PriceService.updatePriceHistory: push, then shift once past capacity. -/
def updatePriceHistory (h : List (String × List PriceData)) (key : String)
    (priceData : PriceData) : List (String × List PriceData) :=
  let history := (mapGet h key).getD []
  let pushed := history ++ [priceData]
  mapSet h key (if priceMaxHistorySize < pushed.length then pushed.tail else pushed)

/-- PriceService.updatePrice: store the latest price and update history.
The source performs no validation whatsoever on the tick. -/
def updatePrice (st : PriceState) (priceData : PriceData) : PriceState :=
  let key := getPriceKey priceData.symbol priceData.exchange
  { priceStore := mapSet st.priceStore key priceData
    priceHistory := updatePriceHistory st.priceHistory key priceData }

/-- PriceService.getPrice. -/
def getPrice (st : PriceState) (symbol exchange : String) : Option PriceData :=
  mapGet st.priceStore (getPriceKey symbol exchange)

/-- PriceService.getAllPricesForSymbol: iterate the store in insertion order,
keeping entries whose stored symbol matches. -/
def getAllPricesForSymbol (st : PriceState) (symbol : String) : List PriceData :=
  (st.priceStore.filter (fun p => p.2.symbol == symbol)).map (·.2)

/-- PriceService.getPriceHistory. -/
def getPriceHistory (st : PriceState) (symbol exchange : String) : List PriceData :=
  (mapGet st.priceHistory (getPriceKey symbol exchange)).getD []

/-- PriceService.isPriceStale: no record means stale; otherwise the age in
seconds (exact rational division by 1000) must exceed 60. -/
def isPriceStale (st : PriceState) (symbol exchange : String) (now : ℤ) : Bool :=
  match getPrice st symbol exchange with
  | none => true
  | some priceData => decide ((((now - priceData.timestamp : ℤ) : ℚ) / 1000) > 60)

/-- Characterization of the staleness test by an integer comparison in
milliseconds: the rational age test is equivalent to now - timestamp > 60000. -/
theorem isPriceStale_eq (st : PriceState) (symbol exchange : String) (now : ℤ) :
    isPriceStale st symbol exchange now =
      match getPrice st symbol exchange with
      | none => true
      | some priceData => decide (now - priceData.timestamp > 60000) := by
  unfold isPriceStale
  cases h : getPrice st symbol exchange with
  | none => rfl
  | some pd =>
    have hiff : ((((now - pd.timestamp : ℤ) : ℚ) / 1000) > 60) ↔
        (now - pd.timestamp > 60000) := by
      rw [gt_iff_lt, lt_div_iff₀ (show (0:ℚ) < 1000 by norm_num)]
      constructor
      · intro hx
        exact_mod_cast hx
      · intro hx
        exact_mod_cast hx
    exact decide_eq_decide.mpr hiff

/-- C10: for a key with no stored record the staleness predicate is true;
for a stored record it is true exactly when the elapsed time strictly
exceeds 60 seconds (60000 ms), so an age of 59999 ms is fresh, 60000 ms is
still fresh, and 60001 ms is stale. -/
theorem isPriceStale_spec (st : PriceState) (symbol exchange : String) (now : ℤ) :
    isPriceStale st symbol exchange now = true ↔
      (getPrice st symbol exchange = none ∨
        ∃ priceData, getPrice st symbol exchange = some priceData ∧
          now - priceData.timestamp > 60000) := by
  rw [isPriceStale_eq]
  cases h : getPrice st symbol exchange with
  | none => simp
  | some pd => simp

/-- A tick with a non-positive price, used to probe updatePrice. -/
def invalidTick : PriceData :=
  { symbol := "BTC/USDT", exchange := "binance", price := some (-1), timestamp := 1000 }

/-- C2 counterexample: updatePrice does not reject a tick with price -1; the
tick lands in the latest-price map and the history, both of which change. -/
theorem updatePrice_stores_invalid_tick :
    getPrice (updatePrice emptyPriceState invalidTick) "BTC/USDT" "binance" =
      some invalidTick ∧
    invalidTick.price = some (-1) ∧
    getPriceHistory (updatePrice emptyPriceState invalidTick) "BTC/USDT" "binance" =
      [invalidTick] ∧
    updatePrice emptyPriceState invalidTick ≠ emptyPriceState := by
  refine ⟨by rfl, by rfl, by rfl, ?_⟩
  intro h
  have := congrArg (fun st => st.priceStore.length) h
  simp [updatePrice, emptyPriceState, mapSet] at this

/-- C2 amended: updatePrice performs no validation at all; for every tick,
valid or not, it replaces the latest entry for the key of the tick and
appends the tick to the history ring, evicting the oldest entry once the
ring exceeds its capacity of 100. -/
theorem updatePrice_unconditional_store (st : PriceState) (priceData : PriceData) :
    getPrice (updatePrice st priceData) priceData.symbol priceData.exchange =
      some priceData ∧
    getPriceHistory (updatePrice st priceData) priceData.symbol priceData.exchange =
      (if priceMaxHistorySize <
          (getPriceHistory st priceData.symbol priceData.exchange ++ [priceData]).length
        then (getPriceHistory st priceData.symbol priceData.exchange ++ [priceData]).tail
        else getPriceHistory st priceData.symbol priceData.exchange ++ [priceData]) := by
  constructor
  · exact mapGet_mapSet_self _ _ _
  · unfold updatePrice updatePriceHistory getPriceHistory
    simp only [mapGet_mapSet_self]
    rfl

/-! ## Arbitrage data model (common/types, part_004) -/

/-- Action field of an opportunity. -/
inductive Action where
  | BUY_A_SELL_B
  | BUY_B_SELL_A
  | INVALID
deriving DecidableEq, Repr

/-- Close reason of a closed opportunity. -/
inductive CloseReason where
  | BELOW_THRESHOLD
  | PRICE_CONVERGED
  | MANUAL
  | TIMEOUT
deriving DecidableEq, Repr

/-- ArbitrageOpportunity record.  Numeric fields are number-or-null in the
source; both null and NaN are modelled by `none` (the source treats the two
identically in every comparison involved, since NaN comparisons are false). -/
structure ArbOpp where
  symbol : String
  exchangeA : String
  exchangeB : String
  priceA : Option ℚ
  priceB : Option ℚ
  priceDifference : Option ℚ
  priceDifferencePercent : Option ℚ
  profit : Option ℚ
  action : Action
  timestamp : ℤ
deriving DecidableEq, Repr

/-- ActiveArbitrageOpportunity record (the tracked open opportunity). -/
structure ActiveOpp where
  symbol : String
  exchangeA : String
  exchangeB : String
  priceA : Option ℚ
  priceB : Option ℚ
  priceDifference : Option ℚ
  priceDifferencePercent : Option ℚ
  profit : Option ℚ
  action : Action
  timestamp : ℤ
  id : String
  openTimestamp : ℤ
  lastUpdatedTimestamp : ℤ
  peakPriceDifferencePercent : ℚ
  peakProfit : ℚ
  peakTimestamp : ℤ
  alertsSent : ℕ
deriving DecidableEq, Repr

/-- ArbitrageOpportunityClosed record. -/
structure ClosedOpp where
  id : String
  symbol : String
  exchangeA : String
  exchangeB : String
  openPriceA : ℚ
  openPriceB : ℚ
  openPriceDifference : ℚ
  openPriceDifferencePercent : ℚ
  openProfit : ℚ
  openTimestamp : ℤ
  closePriceA : ℚ
  closePriceB : ℚ
  closePriceDifference : ℚ
  closePriceDifferencePercent : ℚ
  closeProfit : ℚ
  closeTimestamp : ℤ
  peakPriceDifferencePercent : ℚ
  peakProfit : ℚ
  peakTimestamp : ℤ
  duration : ℤ
  action : Action
  closeReason : CloseReason
  alertsSent : ℕ
deriving DecidableEq, Repr

/-- ArbitrageConfig as read by the ArbitrageService constructor. -/
structure ArbitrageConfig where
  thresholdPercent : ℚ
  closeThresholdPercent : ℚ
  cooldownMinutes : ℤ
  tradingPairs : List String
  minProfitUsd : ℚ
  sendClosedAlerts : Bool
  minOpportunityDurationForCloseAlert : ℤ
deriving DecidableEq, Repr

/-- JS expression x || null on a nullable number: NaN and 0 are falsy. -/
def jsOrNullQ (x : Option ℚ) : Option ℚ :=
  match x with
  | none => none
  | some q => if q = 0 then none else some q

/-- JS expression x || 0 on a nullable number: NaN, null and 0 map to 0. -/
def jsOrZero (x : Option ℚ) : ℚ := x.getD 0

/-- JS expression x || y on strings: the empty string is falsy. -/
def jsOrStr (x y : String) : String := if x = "" then y else x

/-- Cooldown in milliseconds (cooldownMinutes * 60 * 1000). -/
def cooldownMs (cfg : ArbitrageConfig) : ℤ := cfg.cooldownMinutes * 60 * 1000

/-! ## ArbitrageService helpers (part_004) -/

/-- ArbitrageService.calculateArbitrageOpportunity.  The guard of the source
(price not a number, non-positive, or NaN) is the test on each price that it
is a finite number strictly greater than zero; on failure the invalid record
of the source is produced verbatim. -/
def calculateArbitrageOpportunity (priceA priceB : PriceData) (now : ℤ) : ArbOpp :=
  match priceA.price, priceB.price with
  | some a, some b =>
    if a ≤ 0 ∨ b ≤ 0 then
      { symbol := jsOrStr priceA.symbol (jsOrStr priceB.symbol "UNKNOWN")
        exchangeA := jsOrStr priceA.exchange "UNKNOWN"
        exchangeB := jsOrStr priceB.exchange "UNKNOWN"
        priceA := jsOrNullQ priceA.price
        priceB := jsOrNullQ priceB.price
        priceDifference := none
        priceDifferencePercent := none
        profit := none
        action := Action.INVALID
        timestamp := now }
    else
      { symbol := priceA.symbol
        exchangeA := priceA.exchange
        exchangeB := priceB.exchange
        priceA := some a
        priceB := some b
        priceDifference := some |a - b|
        priceDifferencePercent := some ((|a - b| / ((a + b) / 2)) * 100)
        profit := some (|a - b| * 1000)
        action := if a < b then Action.BUY_A_SELL_B else Action.BUY_B_SELL_A
        timestamp := now }
  | _, _ =>
      { symbol := jsOrStr priceA.symbol (jsOrStr priceB.symbol "UNKNOWN")
        exchangeA := jsOrStr priceA.exchange "UNKNOWN"
        exchangeB := jsOrStr priceB.exchange "UNKNOWN"
        priceA := jsOrNullQ priceA.price
        priceB := jsOrNullQ priceB.price
        priceDifference := none
        priceDifferencePercent := none
        profit := none
        action := Action.INVALID
        timestamp := now }

/-- JS [a, b].sort() on two strings under the default comparator. -/
def sortPair (a b : String) : String × String :=
  if jsStrLt b a then (b, a) else (a, b)

/-- ArbitrageService.generateOpportunityId applied to name components. -/
def generateOpportunityIdParts (symbol exchangeA exchangeB : String) : String :=
  let exchanges := sortPair exchangeA exchangeB
  symbol ++ "-" ++ exchanges.1 ++ "-" ++ exchanges.2

/-- ArbitrageService.generateOpportunityId. -/
def generateOpportunityId (opportunity : ArbOpp) : String :=
  generateOpportunityIdParts opportunity.symbol opportunity.exchangeA opportunity.exchangeB

/-- Cooldown-map key used at part_004 lines 169, 193 and 231: the venue pair
is NOT sorted here, unlike in generateOpportunityId. -/
def alertKeyParts (symbol exchangeA exchangeB : String) : String :=
  symbol ++ "-" ++ exchangeA ++ "-" ++ exchangeB

/-- Cooldown-map key of an opportunity. -/
def alertKey (opportunity : ArbOpp) : String :=
  alertKeyParts opportunity.symbol opportunity.exchangeA opportunity.exchangeB

theorem sortPair_comm (a b : String) : sortPair a b = sortPair b a := by
  unfold sortPair
  cases h1 : jsStrLt b a with
  | true =>
    rw [jsStrLt_asymm h1]
    simp
  | false =>
    cases h2 : jsStrLt a b with
    | true => rfl
    | false => rw [jsStrLt_eq_of_not h2 h1]

/-- ArbitrageService.isValidArbitrageOpportunity: data validity, open
threshold, minimum profit, then the cooldown gate keyed by the UNSORTED
alert key.  A recorded alert time of 0 is falsy in JS and is ignored. -/
def isValidArbitrageOpportunity (cfg : ArbitrageConfig)
    (recentAlerts : List (String × ℤ)) (now : ℤ) (opportunity : ArbOpp) : Bool :=
  match opportunity.priceA, opportunity.priceB, opportunity.priceDifference,
      opportunity.priceDifferencePercent, opportunity.profit with
  | some _, some _, some _, some pct, some profit =>
    if opportunity.action = Action.INVALID then false
    else if pct < cfg.thresholdPercent then false
    else if profit < cfg.minProfitUsd then false
    else
      match mapGet recentAlerts (alertKey opportunity) with
      | some lastAlert =>
          if lastAlert ≠ 0 ∧ now - lastAlert < cooldownMs cfg then false else true
      | none => true
  | _, _, _, _, _ => false

/-- ArbitrageService.updateActiveOpportunity: overwrite the current price
fields and lastUpdatedTimestamp, then advance the peak if the current
spread percent is strictly higher. -/
def updateActiveOpportunity (activeOpportunity : ActiveOpp)
    (currentOpportunity : ArbOpp) (now : ℤ) : ActiveOpp :=
  let updated :=
    { activeOpportunity with
        priceA := currentOpportunity.priceA
        priceB := currentOpportunity.priceB
        priceDifference := currentOpportunity.priceDifference
        priceDifferencePercent := currentOpportunity.priceDifferencePercent
        profit := currentOpportunity.profit
        lastUpdatedTimestamp := now }
  match currentOpportunity.priceDifferencePercent with
  | some pct =>
      if pct > activeOpportunity.peakPriceDifferencePercent then
        { updated with
            peakPriceDifferencePercent := pct
            peakProfit := jsOrZero currentOpportunity.profit
            peakTimestamp := now }
      else updated
  | none => updated

/-- ArbitrageService.createClosedOpportunity.  The so-called opening details
are read from the CURRENT fields of the active opportunity at close time.
When the two close prices are not both available the close values stay 0.
If the two close prices sum to 0 the source would produce a non-finite
percent; rational division by zero yields 0 here, a case no claim and no
reachable state depends on (stored close prices come in pairs with a
positive sum on every close path that passes prices). -/
def createClosedOpportunity (activeOpportunity : ActiveOpp)
    (closePriceA closePriceB : Option ℚ) (closeReason : CloseReason)
    (closeTimestamp : ℤ) : ClosedOpp :=
  let duration := closeTimestamp - activeOpportunity.openTimestamp
  let closeVals : ℚ × ℚ × ℚ :=
    match closePriceA, closePriceB with
    | some a, some b => (|a - b|, (|a - b| / ((a + b) / 2)) * 100, |a - b| * 1000)
    | _, _ => (0, 0, 0)
  { id := activeOpportunity.id
    symbol := activeOpportunity.symbol
    exchangeA := activeOpportunity.exchangeA
    exchangeB := activeOpportunity.exchangeB
    openPriceA := jsOrZero activeOpportunity.priceA
    openPriceB := jsOrZero activeOpportunity.priceB
    openPriceDifference := jsOrZero activeOpportunity.priceDifference
    openPriceDifferencePercent := jsOrZero activeOpportunity.priceDifferencePercent
    openProfit := jsOrZero activeOpportunity.profit
    openTimestamp := activeOpportunity.openTimestamp
    closePriceA := jsOrZero closePriceA
    closePriceB := jsOrZero closePriceB
    closePriceDifference := closeVals.1
    closePriceDifferencePercent := closeVals.2.1
    closeProfit := closeVals.2.2
    closeTimestamp := closeTimestamp
    peakPriceDifferencePercent := activeOpportunity.peakPriceDifferencePercent
    peakProfit := activeOpportunity.peakProfit
    peakTimestamp := activeOpportunity.peakTimestamp
    duration := duration
    action := if activeOpportunity.action = Action.INVALID then Action.BUY_A_SELL_B
      else activeOpportunity.action
    closeReason := closeReason
    alertsSent := activeOpportunity.alertsSent }

/-- ArbitrageService.shouldCloseOpportunity.  The timeout branch calls
Date.now() again in the source; the scan time is used for both here. -/
def shouldCloseOpportunity (cfg : ArbitrageConfig) (currentOpportunity : ArbOpp)
    (activeOpportunity : ActiveOpp) (now : ℤ) : Bool × CloseReason :=
  match currentOpportunity.priceDifferencePercent with
  | some pct =>
    if pct < cfg.closeThresholdPercent then (true, CloseReason.BELOW_THRESHOLD)
    else if pct < 1 / 10 then (true, CloseReason.PRICE_CONVERGED)
    else if now - activeOpportunity.openTimestamp > 7200000 then
      (true, CloseReason.TIMEOUT)
    else (false, CloseReason.BELOW_THRESHOLD)
  | none =>
    if now - activeOpportunity.openTimestamp > 7200000 then (true, CloseReason.TIMEOUT)
    else (false, CloseReason.BELOW_THRESHOLD)

/-- ArbitrageService.getCurrentOpportunityState. -/
def getCurrentOpportunityState (prices : PriceState)
    (symbol exchangeA exchangeB : String) (now : ℤ) : Option ArbOpp :=
  let ps := getAllPricesForSymbol prices symbol
  match ps.find? (fun p => p.exchange == exchangeA),
      ps.find? (fun p => p.exchange == exchangeB) with
  | some priceA, some priceB =>
    if isPriceStale prices symbol exchangeA now ∨ isPriceStale prices symbol exchangeB now
      then none
      else some (calculateArbitrageOpportunity priceA priceB now)
  | _, _ => none

/-- C9: the opportunity id is symmetric in the two venue arguments; the id
built from (instrument, a, b) equals the id built from (instrument, b, a). -/
theorem generateOpportunityId_symm (opportunity : ArbOpp) :
    generateOpportunityId
      { opportunity with
          exchangeA := opportunity.exchangeB
          exchangeB := opportunity.exchangeA } =
    generateOpportunityId opportunity := by
  unfold generateOpportunityId generateOpportunityIdParts
  rw [sortPair_comm]

/-- Configuration produced by the constructor defaults of ArbitrageService. -/
def defaultConfig : ArbitrageConfig :=
  { thresholdPercent := 7 / 10
    closeThresholdPercent := 1 / 2
    cooldownMinutes := 5
    tradingPairs := ["BTC/USDT", "ETH/USDT"]
    minProfitUsd := 10
    sendClosedAlerts := true
    minOpportunityDurationForCloseAlert := 2 }

/-- C8: boundary behavior of the two thresholds.  A spread percent exactly
equal to the open threshold passes the open validation (the rejection test
is strict less-than), and a recomputed spread percent exactly equal to the
close threshold is never closed by the below-threshold rule. -/
theorem thresholds_boundary (cfg : ArbitrageConfig)
    (recentAlerts : List (String × ℤ)) (now : ℤ)
    (opportunity currentOpportunity : ArbOpp) (activeOpportunity : ActiveOpp)
    (h1 : opportunity.action ≠ Action.INVALID)
    (h2 : opportunity.priceA.isSome) (h3 : opportunity.priceB.isSome)
    (h4 : opportunity.priceDifference.isSome)
    (h5 : opportunity.priceDifferencePercent = some cfg.thresholdPercent)
    (h6 : ∃ profit, opportunity.profit = some profit ∧ cfg.minProfitUsd ≤ profit)
    (h7 : ∀ v, mapGet recentAlerts (alertKey opportunity) = some v →
      v = 0 ∨ cooldownMs cfg ≤ now - v)
    (h8 : currentOpportunity.priceDifferencePercent = some cfg.closeThresholdPercent) :
    isValidArbitrageOpportunity cfg recentAlerts now opportunity = true ∧
    shouldCloseOpportunity cfg currentOpportunity activeOpportunity now ≠
      (true, CloseReason.BELOW_THRESHOLD) := by
  obtain ⟨a, ha⟩ := Option.isSome_iff_exists.mp h2
  obtain ⟨b, hb⟩ := Option.isSome_iff_exists.mp h3
  obtain ⟨d, hd⟩ := Option.isSome_iff_exists.mp h4
  obtain ⟨profit, hpr, hmin⟩ := h6
  constructor
  · unfold isValidArbitrageOpportunity
    rw [ha, hb, hd, h5, hpr]
    simp only [if_neg (by simpa using h1), if_neg (lt_irrefl cfg.thresholdPercent),
      if_neg (not_lt.mpr hmin)]
    cases hm : mapGet recentAlerts (alertKey opportunity) with
    | none => rfl
    | some v =>
      rcases h7 v hm with hz | hcd
      · simp [hz]
      · simp [not_lt.mpr hcd]
  · have hred : shouldCloseOpportunity cfg currentOpportunity activeOpportunity now =
        (if cfg.closeThresholdPercent < cfg.closeThresholdPercent then
          (true, CloseReason.BELOW_THRESHOLD)
        else if cfg.closeThresholdPercent < 1 / 10 then
          (true, CloseReason.PRICE_CONVERGED)
        else if now - activeOpportunity.openTimestamp > 7200000 then
          (true, CloseReason.TIMEOUT)
        else (false, CloseReason.BELOW_THRESHOLD)) := by
      unfold shouldCloseOpportunity
      rw [h8]
    rw [hred, if_neg (lt_irrefl cfg.closeThresholdPercent)]
    by_cases hc : cfg.closeThresholdPercent < 1 / 10
    · rw [if_pos hc]
      simp
    · rw [if_neg hc]
      by_cases ht : now - activeOpportunity.openTimestamp > 7200000
      · rw [if_pos ht]
        simp
      · rw [if_neg ht]
        simp

/-- Opportunity record sitting exactly at the default open threshold. -/
def boundaryOpportunity : ArbOpp :=
  { symbol := "BTC/USDT", exchangeA := "binance", exchangeB := "bybit"
    priceA := some 100, priceB := some (1007 / 10)
    priceDifference := some (7 / 10), priceDifferencePercent := some (7 / 10)
    profit := some 700, action := Action.BUY_A_SELL_B, timestamp := 1000 }

/-- Opportunity record sitting exactly at the default close threshold. -/
def boundaryCurrent : ArbOpp :=
  { symbol := "BTC/USDT", exchangeA := "binance", exchangeB := "bybit"
    priceA := some 100, priceB := some (1005 / 10)
    priceDifference := some (1 / 2), priceDifferencePercent := some (1 / 2)
    profit := some 500, action := Action.BUY_A_SELL_B, timestamp := 1000 }

/-- Active record used to exercise the close boundary. -/
def boundaryActive : ActiveOpp :=
  { symbol := "BTC/USDT", exchangeA := "binance", exchangeB := "bybit"
    priceA := some 100, priceB := some (1007 / 10)
    priceDifference := some (7 / 10), priceDifferencePercent := some (7 / 10)
    profit := some 700, action := Action.BUY_A_SELL_B, timestamp := 1000
    id := "BTC/USDT-binance-bybit", openTimestamp := 1000
    lastUpdatedTimestamp := 1000, peakPriceDifferencePercent := 7 / 10
    peakProfit := 700, peakTimestamp := 1000, alertsSent := 1 }

theorem thresholds_boundary_witness :
    isValidArbitrageOpportunity defaultConfig [] 2000 boundaryOpportunity = true ∧
    shouldCloseOpportunity defaultConfig boundaryCurrent boundaryActive 2000 ≠
      (true, CloseReason.BELOW_THRESHOLD) :=
  thresholds_boundary defaultConfig [] 2000 boundaryOpportunity boundaryCurrent
    boundaryActive (by decide) (by rfl) (by rfl) (by rfl) (by rfl)
    ⟨700, rfl, by norm_num [defaultConfig]⟩
    (by intro v hv; simp [mapGet] at hv) (by rfl)

/-! ## Binance adapter (src/exchange/binance.service.ts) -/

/-- Parsed ticker frame as consumed by BinanceService.parseTickerData.  Each
field holds the parseFloat image of the corresponding wire string: `none`
stands for NaN (field missing or unparsable). -/
structure BinanceTicker where
  c : Option ℚ
  v : Option ℚ
  high : Option ℚ
  low : Option ℚ
deriving DecidableEq, Repr

/-- BinanceService.parseTickerData: the close price is taken verbatim; no
validation of any kind is performed.  The volume, high and low fields are
carried opaquely and omitted from the normalized record (see PriceData). -/
def parseTickerData (data : BinanceTicker) (symbol : String) (now : ℤ) : PriceData :=
  { symbol := symbol, price := data.c, exchange := "binance", timestamp := now }

/-- Ticks handed to the subscribe callback by the message handler of
BinanceService.subscribeToTicker for one successfully parsed frame: the
callback is always invoked, exactly once, with the parsed tick. -/
def binanceMessageCallbacks (data : BinanceTicker) (symbol : String)
    (now : ℤ) : List PriceData :=
  [parseTickerData data symbol now]

/-- Frame whose close-price field parses to -5. -/
def badFrame : BinanceTicker := { c := some (-5), v := none, high := none, low := none }

/-- Fresh positive tick used as the partner price in witnesses. -/
def goodTick : PriceData :=
  { symbol := "BTC/USDT", exchange := "bybit", price := some 100, timestamp := 0 }

/-- C3 counterexample: a frame carrying a negative close price is delivered
to the sink unchanged — the adapter drops nothing. -/
theorem binance_delivers_invalid_price :
    binanceMessageCallbacks badFrame "BTC/USDT" 0 =
      [{ symbol := "BTC/USDT", exchange := "binance", price := some (-5), timestamp := 0 }] ∧
    (parseTickerData badFrame "BTC/USDT" 0).price = some (-5) ∧
    ¬ (0 : ℚ) < -5 := by
  refine ⟨rfl, rfl, by norm_num⟩

/-- C3 amended: the adapter delivers every parsed frame to the sink without
any price validation; a tick with a NaN or non-positive price is instead
neutralized downstream, where the spread computation marks any pair
involving it INVALID and the validation rejects it. -/
theorem binance_no_adapter_validation (data : BinanceTicker) (symbol : String)
    (now : ℤ) (pa pb : PriceData) (cfg : ArbitrageConfig)
    (recentAlerts : List (String × ℤ))
    (hbad : (pa.price = none ∨ ∃ q, pa.price = some q ∧ q ≤ 0) ∨
      (pb.price = none ∨ ∃ q, pb.price = some q ∧ q ≤ 0)) :
    binanceMessageCallbacks data symbol now = [parseTickerData data symbol now] ∧
    (calculateArbitrageOpportunity pa pb now).action = Action.INVALID ∧
    isValidArbitrageOpportunity cfg recentAlerts now
      (calculateArbitrageOpportunity pa pb now) = false := by
  have hinv : (calculateArbitrageOpportunity pa pb now).action = Action.INVALID ∧
      (calculateArbitrageOpportunity pa pb now).priceDifference = none := by
    cases hA : pa.price with
    | none => cases hB : pb.price with
      | none => simp only [calculateArbitrageOpportunity, hA, hB]; exact ⟨trivial, trivial⟩
      | some b => simp only [calculateArbitrageOpportunity, hA, hB]; exact ⟨trivial, trivial⟩
    | some a =>
      cases hB : pb.price with
      | none => simp only [calculateArbitrageOpportunity, hA, hB]; exact ⟨trivial, trivial⟩
      | some b =>
        have hle : a ≤ 0 ∨ b ≤ 0 := by
          rcases hbad with (h | ⟨q, hq, hq0⟩) | (h | ⟨q, hq, hq0⟩)
          · rw [hA] at h; cases h
          · rw [hA] at hq; exact Or.inl (by injection hq with h; rw [h]; exact hq0)
          · rw [hB] at h; cases h
          · rw [hB] at hq; exact Or.inr (by injection hq with h; rw [h]; exact hq0)
        simp only [calculateArbitrageOpportunity, hA, hB, if_pos hle]
        exact ⟨trivial, trivial⟩
  refine ⟨rfl, hinv.1, ?_⟩
  unfold isValidArbitrageOpportunity
  rw [hinv.2]
  rcases hopt : (calculateArbitrageOpportunity pa pb now).priceA with _ | q1 <;>
    rcases hopt2 : (calculateArbitrageOpportunity pa pb now).priceB with _ | q2 <;>
    rfl

theorem binance_no_adapter_validation_witness :
    binanceMessageCallbacks badFrame "BTC/USDT" 0 =
      [parseTickerData badFrame "BTC/USDT" 0] ∧
    (calculateArbitrageOpportunity (parseTickerData badFrame "BTC/USDT" 0)
      goodTick 0).action = Action.INVALID ∧
    isValidArbitrageOpportunity defaultConfig [] 0
      (calculateArbitrageOpportunity (parseTickerData badFrame "BTC/USDT" 0)
        goodTick 0) = false :=
  binance_no_adapter_validation badFrame "BTC/USDT" 0
    (parseTickerData badFrame "BTC/USDT" 0) goodTick defaultConfig []
    (Or.inl (Or.inr ⟨-5, rfl, by norm_num⟩))

/-! ## Engine state and scan (ArbitrageService, part_004) -/

/-- Job added to the arbitrage Bull queue, with its priority. -/
inductive QueueJob where
  | processOpportunity (opportunity : ArbOpp) (priority : ℤ)
  | processClosedOpportunity (closed : ClosedOpp) (priority : ℤ)
deriving DecidableEq, Repr

/-- Priority Math.floor(priceDifferencePercent * 10); a null percent coerces
to 0 in the JS arithmetic (enqueues only happen for validated records, so
the NaN case is unreachable there). -/
def jsFloorPriority (pct : Option ℚ) : ℤ := ⌊jsOrZero pct * 10⌋

/-- Full state of the ArbitrageService plus the PriceService it reads and
the outbound queue it fills. -/
structure SysState where
  prices : PriceState
  recentAlerts : List (String × ℤ)
  activeOpportunities : List (String × ActiveOpp)
  opportunityHistory : List ArbOpp
  closedOpportunityHistory : List ClosedOpp
  queue : List QueueJob
deriving DecidableEq, Repr

def emptySysState : SysState := ⟨emptyPriceState, [], [], [], [], []⟩

/-- History cap of ArbitrageService (maxHistorySize). -/
def arbMaxHistorySize : ℕ := 1000

/-- ArbitrageService.addToHistory: push and drop the oldest past capacity. -/
def addToHistory (history : List ArbOpp) (opportunity : ArbOpp) : List ArbOpp :=
  let pushed := history ++ [opportunity]
  if arbMaxHistorySize < pushed.length then pushed.tail else pushed

/-- ArbitrageService.processClosedOpportunity: skip entirely when the
duration in minutes is below the configured minimum, otherwise enqueue the
CLOSE job (priority from the peak) and append to the closed history ring. -/
def processClosedOpportunityStep (cfg : ArbitrageConfig) (st : SysState)
    (closed : ClosedOpp) : SysState :=
  if ((closed.duration : ℚ) / 60000) < (cfg.minOpportunityDurationForCloseAlert : ℚ)
    then st
    else
      let pushed := st.closedOpportunityHistory ++ [closed]
      { st with
          queue := st.queue ++
            [QueueJob.processClosedOpportunity closed ⌊closed.peakPriceDifferencePercent * 10⌋]
          closedOpportunityHistory :=
            if arbMaxHistorySize < pushed.length then pushed.tail else pushed }

/-- One iteration of the first loop of checkForClosedOpportunities: either
collect a close record (prices unavailable, or a close condition fired) or
update the active opportunity in place. -/
def closeScanStep (cfg : ArbitrageConfig) (prices : PriceState) (now : ℤ)
    (acc : List (String × ActiveOpp) × List ClosedOpp) (p : String × ActiveOpp) :
    List (String × ActiveOpp) × List ClosedOpp :=
  match getCurrentOpportunityState prices p.2.symbol p.2.exchangeA
      p.2.exchangeB now with
  | none =>
      (acc.1 ++ [p],
       acc.2 ++ [createClosedOpportunity p.2 none none
         CloseReason.PRICE_CONVERGED now])
  | some currentOpportunity =>
      let shouldClose := shouldCloseOpportunity cfg currentOpportunity p.2 now
      if shouldClose.1 then
        (acc.1 ++ [p],
         acc.2 ++ [createClosedOpportunity p.2 currentOpportunity.priceA
           currentOpportunity.priceB shouldClose.2 now])
      else
        (acc.1 ++ [(p.1, updateActiveOpportunity p.2 currentOpportunity now)],
         acc.2)

/-- One iteration of the second loop of checkForClosedOpportunities: process
the close record, then delete its id from the active map. -/
def closeProcessStep (cfg : ArbitrageConfig) (s : SysState) (closed : ClosedOpp) :
    SysState :=
  let s1 := processClosedOpportunityStep cfg s closed
  { s1 with activeOpportunities := mapDelete s1.activeOpportunities closed.id }

/-- ArbitrageService.checkForClosedOpportunities.  Skipped entirely when
sendClosedAlerts is false.  The first pass walks the active map in order,
collecting close records and updating survivors in place; the second pass
processes each close record and deletes its id from the active map. -/
def checkForClosedOpportunities (cfg : ArbitrageConfig) (st : SysState)
    (now : ℤ) : SysState :=
  if cfg.sendClosedAlerts = false then st
  else
    let scanned := st.activeOpportunities.foldl (closeScanStep cfg st.prices now)
      ([], [])
    let st1 := { st with activeOpportunities := scanned.1 }
    scanned.2.foldl (closeProcessStep cfg) st1

/-- Ordered pair enumeration of the source double loop (indices i < j). -/
def allPairs : List α → List (α × α)
  | [] => []
  | x :: xs => (xs.map (fun y => (x, y))) ++ allPairs xs

/-- ArbitrageService.findArbitrageOpportunities. -/
def findArbitrageOpportunities (cfg : ArbitrageConfig) (st : SysState)
    (now : ℤ) : List ArbOpp :=
  cfg.tradingPairs.foldl
    (fun opportunities symbol =>
      let prices := getAllPricesForSymbol st.prices symbol
      if prices.length < 2 then opportunities
      else
        let freshPrices :=
          prices.filter (fun price => !(isPriceStale st.prices symbol price.exchange now))
        if freshPrices.length < 2 then opportunities
        else
          opportunities ++
            ((allPairs freshPrices).map
              (fun pq => calculateArbitrageOpportunity pq.1 pq.2 now)).filter
              (isValidArbitrageOpportunity cfg st.recentAlerts now))
    []

/-- ArbitrageService.processArbitrageOpportunity.  The cooldown re-check of
the update path treats a recorded 0 as absent (JS falsiness); the new path
enqueues unconditionally (its cooldown test happened during validation). -/
def processArbitrageOpportunity (cfg : ArbitrageConfig) (st : SysState)
    (opportunity : ArbOpp) (now : ℤ) : SysState :=
  let opportunityId := generateOpportunityId opportunity
  let st1 :=
    match mapGet st.activeOpportunities opportunityId with
    | some activeOpportunity =>
      let updated := updateActiveOpportunity activeOpportunity opportunity now
      let key := alertKey opportunity
      let send : Bool :=
        match mapGet st.recentAlerts key with
        | some lastAlert => decide (lastAlert = 0 ∨ cooldownMs cfg ≤ now - lastAlert)
        | none => true
      if send then
        { st with
            activeOpportunities := mapSet st.activeOpportunities opportunityId
              { updated with alertsSent := updated.alertsSent + 1 }
            queue := st.queue ++ [QueueJob.processOpportunity opportunity
              (jsFloorPriority opportunity.priceDifferencePercent)]
            recentAlerts := mapSet st.recentAlerts key now }
      else
        { st with
            activeOpportunities := mapSet st.activeOpportunities opportunityId updated }
    | none =>
      let activeOpportunity : ActiveOpp :=
        { symbol := opportunity.symbol
          exchangeA := opportunity.exchangeA
          exchangeB := opportunity.exchangeB
          priceA := opportunity.priceA
          priceB := opportunity.priceB
          priceDifference := opportunity.priceDifference
          priceDifferencePercent := opportunity.priceDifferencePercent
          profit := opportunity.profit
          action := opportunity.action
          timestamp := opportunity.timestamp
          id := opportunityId
          openTimestamp := now
          lastUpdatedTimestamp := now
          peakPriceDifferencePercent := jsOrZero opportunity.priceDifferencePercent
          peakProfit := jsOrZero opportunity.profit
          peakTimestamp := now
          alertsSent := 1 }
      { st with
          activeOpportunities := mapSet st.activeOpportunities opportunityId
            activeOpportunity
          queue := st.queue ++ [QueueJob.processOpportunity opportunity
            (jsFloorPriority opportunity.priceDifferencePercent)]
          recentAlerts := mapSet st.recentAlerts (alertKey opportunity) now }
  { st1 with opportunityHistory := addToHistory st1.opportunityHistory opportunity }

/-- ArbitrageService.detectArbitrageOpportunities: one cron scan. -/
def detectArbitrageOpportunities (cfg : ArbitrageConfig) (st : SysState)
    (now : ℤ) : SysState :=
  let st1 := checkForClosedOpportunities cfg st now
  let opportunities := findArbitrageOpportunities cfg st1 now
  opportunities.foldl
    (fun s opportunity => processArbitrageOpportunity cfg s opportunity now) st1

/-- Externally observable engine operations: a tick delivered into the
price store, or one timer scan.  The public control-surface endpoints
(clearRecentAlerts, updateConfig) and the never-invoked cleanupStalePrices
are not part of the engine loop. -/
inductive Op where
  | tick (priceData : PriceData)
  | scan (now : ℤ)
deriving DecidableEq, Repr

/-- One engine step. -/
def step (cfg : ArbitrageConfig) (st : SysState) (op : Op) : SysState :=
  match op with
  | Op.tick priceData => { st with prices := updatePrice st.prices priceData }
  | Op.scan now => detectArbitrageOpportunities cfg st now

/-- An execution of the engine from the empty state. -/
def runTrace (cfg : ArbitrageConfig) (ops : List Op) : SysState :=
  ops.foldl (step cfg) emptySysState

/-! ## C4: the opening snapshot of a closed opportunity -/

def c4TickA : PriceData := { symbol := "BTC/USDT", exchange := "binance", price := some 100, timestamp := 1000 }

def c4TickB : PriceData := { symbol := "BTC/USDT", exchange := "bybit", price := some 101, timestamp := 1000 }

def c4TickB2 : PriceData := { symbol := "BTC/USDT", exchange := "bybit", price := some 102, timestamp := 2000 }

/-- The opportunity exactly as first detected: priceB is 101. -/
def c4Open : ArbOpp := calculateArbitrageOpportunity c4TickA c4TickB 1000

/-- Open at t=1000 (spread 0.995%), update at t=2000 (spread 1.98%, priceB
now 102), then close at t=125000 when both ticks have gone stale. -/
def c4Trace : List Op :=
  [Op.tick c4TickA, Op.tick c4TickB, Op.scan 1000,
   Op.tick c4TickB2, Op.scan 2000, Op.scan 125000]

/-- Price store after the first two ticks. -/
def c4Store2 : PriceState :=
  { priceStore := [("BTC/USDT-binance", c4TickA), ("BTC/USDT-bybit", c4TickB)]
    priceHistory := [("BTC/USDT-binance", [c4TickA]), ("BTC/USDT-bybit", [c4TickB])] }

/-- Price store after the bybit price moves to 102. -/
def c4Store3 : PriceState :=
  { priceStore := [("BTC/USDT-binance", c4TickA), ("BTC/USDT-bybit", c4TickB2)]
    priceHistory := [("BTC/USDT-binance", [c4TickA]), ("BTC/USDT-bybit", [c4TickB, c4TickB2])] }

/-- The opportunity computed in the opening scan (spread 200/201 percent). -/
def c4Opp1 : ArbOpp :=
  { symbol := "BTC/USDT", exchangeA := "binance", exchangeB := "bybit"
    priceA := some 100, priceB := some 101, priceDifference := some 1
    priceDifferencePercent := some (200 / 201), profit := some 1000
    action := Action.BUY_A_SELL_B, timestamp := 1000 }

/-- The active record created by the opening scan. -/
def c4Act1 : ActiveOpp :=
  { symbol := "BTC/USDT", exchangeA := "binance", exchangeB := "bybit"
    priceA := some 100, priceB := some 101, priceDifference := some 1
    priceDifferencePercent := some (200 / 201), profit := some 1000
    action := Action.BUY_A_SELL_B, timestamp := 1000
    id := "BTC/USDT-binance-bybit", openTimestamp := 1000
    lastUpdatedTimestamp := 1000, peakPriceDifferencePercent := 200 / 201
    peakProfit := 1000, peakTimestamp := 1000, alertsSent := 1 }

/-- The active record after the update scan at t=2000 (priceB now 102). -/
def c4Act2 : ActiveOpp :=
  { symbol := "BTC/USDT", exchangeA := "binance", exchangeB := "bybit"
    priceA := some 100, priceB := some 102, priceDifference := some 2
    priceDifferencePercent := some (200 / 101), profit := some 2000
    action := Action.BUY_A_SELL_B, timestamp := 1000
    id := "BTC/USDT-binance-bybit", openTimestamp := 1000
    lastUpdatedTimestamp := 2000, peakPriceDifferencePercent := 200 / 101
    peakProfit := 2000, peakTimestamp := 2000, alertsSent := 1 }

/-- State after [tick A, tick B, scan 1000]. -/
def c4S2 : SysState :=
  { prices := c4Store2
    recentAlerts := [("BTC/USDT-binance-bybit", 1000)]
    activeOpportunities := [("BTC/USDT-binance-bybit", c4Act1)]
    opportunityHistory := [c4Opp1]
    closedOpportunityHistory := []
    queue := [QueueJob.processOpportunity c4Opp1 9] }

/-- State after the further [tick B2, scan 2000]. -/
def c4S4 : SysState :=
  { prices := c4Store3
    recentAlerts := [("BTC/USDT-binance-bybit", 1000)]
    activeOpportunities := [("BTC/USDT-binance-bybit", c4Act2)]
    opportunityHistory := [c4Opp1]
    closedOpportunityHistory := []
    queue := [QueueJob.processOpportunity c4Opp1 9] }

/-- The closed record produced at t=125000, when both prices are stale. -/
def c4Closed : ClosedOpp :=
  { id := "BTC/USDT-binance-bybit", symbol := "BTC/USDT"
    exchangeA := "binance", exchangeB := "bybit"
    openPriceA := 100, openPriceB := 102, openPriceDifference := 2
    openPriceDifferencePercent := 200 / 101, openProfit := 2000
    openTimestamp := 1000
    closePriceA := 0, closePriceB := 0, closePriceDifference := 0
    closePriceDifferencePercent := 0, closeProfit := 0
    closeTimestamp := 125000
    peakPriceDifferencePercent := 200 / 101, peakProfit := 2000
    peakTimestamp := 2000
    duration := 124000, action := Action.BUY_A_SELL_B
    closeReason := CloseReason.PRICE_CONVERGED, alertsSent := 1 }

/-- Final state of the C4 trace. -/
def c4S5 : SysState :=
  { prices := c4Store3
    recentAlerts := [("BTC/USDT-binance-bybit", 1000)]
    activeOpportunities := []
    opportunityHistory := [c4Opp1]
    closedOpportunityHistory := [c4Closed]
    queue := [QueueJob.processOpportunity c4Opp1 9,
      QueueJob.processClosedOpportunity c4Closed 19] }

theorem c4_step_ticks :
    step defaultConfig (step defaultConfig emptySysState (Op.tick c4TickA))
      (Op.tick c4TickB) =
    { prices := c4Store2, recentAlerts := [], activeOpportunities := []
      opportunityHistory := [], closedOpportunityHistory := [], queue := [] } := by
  rfl

set_option maxHeartbeats 1000000 in
theorem c4_step_scan1 :
    step defaultConfig
      { prices := c4Store2, recentAlerts := [], activeOpportunities := []
        opportunityHistory := [], closedOpportunityHistory := [], queue := [] }
      (Op.scan 1000) = c4S2 := by
  have hid : generateOpportunityIdParts "BTC/USDT" "binance" "bybit" = "BTC/USDT-binance-bybit" := by rfl
  have e1 : |(100:ℚ) - 101| = 1 := by norm_num
  have e3 : ((1:ℚ) * 1000) = 1000 := by norm_num
  have hp : ((2:ℚ) / (100 + 101) * 100) = 200 / 201 := by norm_num
  have c1 : ((100:ℚ) ≤ 0 ∨ (101:ℚ) ≤ 0) = False := by norm_num
  have c2 : ((100:ℚ) < 101) = True := by norm_num
  have c3 : ((200:ℚ)/201 < 7/10) = False := by norm_num
  have c4 : ((1000:ℚ) < 10) = False := by norm_num
  have c5 : (⌊(200:ℚ)/201 * 10⌋ : ℤ) = 9 := by norm_num
  simp [step, detectArbitrageOpportunities, checkForClosedOpportunities,
    closeScanStep, closeProcessStep,
    findArbitrageOpportunities, getAllPricesForSymbol, isPriceStale_eq, getPrice,
    mapGet, mapSet, getPriceKey, allPairs, calculateArbitrageOpportunity,
    isValidArbitrageOpportunity, alertKey, alertKeyParts, cooldownMs,
    processArbitrageOpportunity, generateOpportunityId, addToHistory,
    jsFloorPriority, jsOrZero, defaultConfig, arbMaxHistorySize, c4Store2,
    c4TickA, c4TickB, c4S2, c4Opp1, c4Act1, List.filter_cons, List.filter_nil,
    hid, e1, e3, hp, c1, c2, c3, c4, c5]

theorem c4_step_tick3 :
    step defaultConfig c4S2 (Op.tick c4TickB2) = { c4S2 with prices := c4Store3 } := by
  rfl

set_option maxHeartbeats 1000000 in
theorem c4_scan2_closes :
    checkForClosedOpportunities defaultConfig { c4S2 with prices := c4Store3 } 2000 = c4S4 := by
  have e1 : |(100:ℚ) - 102| = 2 := by norm_num
  have e3 : ((2:ℚ) * 1000) = 2000 := by norm_num
  have hp : ((4:ℚ) / (100 + 102) * 100) = 200 / 101 := by norm_num
  have c1 : ((100:ℚ) ≤ 0 ∨ (102:ℚ) ≤ 0) = False := by norm_num
  have c2 : ((100:ℚ) < 102) = True := by norm_num
  have c6a : ((200:ℚ)/101 < 1/2) = False := by norm_num
  have c6b : ((200:ℚ)/101 < 2⁻¹) = False := by norm_num
  have c7a : ((200:ℚ)/101 < 1/10) = False := by norm_num
  have c7b : ((200:ℚ)/101 < 10⁻¹) = False := by norm_num
  have c8 : ((200:ℚ)/201 < 200/101) = True := by norm_num
  have hp2 : ((2:ℚ) / ((100 + 102) / 2) * 100) = 200 / 101 := by norm_num
  simp [checkForClosedOpportunities, closeScanStep, closeProcessStep, getCurrentOpportunityState,
    shouldCloseOpportunity, updateActiveOpportunity, getAllPricesForSymbol,
    isPriceStale_eq, getPrice, mapGet, mapSet, mapDelete, getPriceKey,
    calculateArbitrageOpportunity, defaultConfig, jsOrZero,
    c4S2, c4S4, c4Store2, c4Store3, c4TickA, c4TickB, c4TickB2, c4Act1, c4Act2,
    c4Opp1, List.filter_cons, List.filter_nil,
    e1, e3, hp, hp2, c1, c2, c6a, c6b, c7a, c7b, c8]

set_option maxHeartbeats 1000000 in
theorem c4_scan2_find :
    findArbitrageOpportunities defaultConfig c4S4 2000 = [] := by
  have e1 : |(100:ℚ) - 102| = 2 := by norm_num
  have e3 : ((2:ℚ) * 1000) = 2000 := by norm_num
  have hp : ((4:ℚ) / (100 + 102) * 100) = 200 / 101 := by norm_num
  have c1 : ((100:ℚ) ≤ 0 ∨ (102:ℚ) ≤ 0) = False := by norm_num
  have c2 : ((100:ℚ) < 102) = True := by norm_num
  have c9 : ((200:ℚ)/101 < 7/10) = False := by norm_num
  have c10 : ((2000:ℚ) < 10) = False := by norm_num
  simp [findArbitrageOpportunities, getAllPricesForSymbol, isPriceStale_eq, getPrice,
    mapGet, getPriceKey, allPairs, calculateArbitrageOpportunity,
    isValidArbitrageOpportunity, alertKey, alertKeyParts, cooldownMs,
    defaultConfig, c4S4, c4Store3, c4TickA, c4TickB2, c4Act2,
    List.filter_cons, List.filter_nil, e1, e3, hp, c1, c2, c9, c10]

theorem c4_step_scan2 :
    step defaultConfig { c4S2 with prices := c4Store3 } (Op.scan 2000) = c4S4 := by
  simp only [step, detectArbitrageOpportunities, c4_scan2_closes, c4_scan2_find,
    List.foldl]

set_option maxHeartbeats 1000000 in
theorem c4_scan3_closes :
    checkForClosedOpportunities defaultConfig c4S4 125000 = c4S5 := by
  have cc1a : ((((124000:ℤ)):ℚ)/60000 < (((2:ℤ)):ℚ)) = False := by norm_num
  have cc1b : (((124000:ℚ))/60000 < (2:ℚ)) = False := by norm_num
  have cc2 : (⌊(200:ℚ)/101 * 10⌋ : ℤ) = 19 := by norm_num
  simp [checkForClosedOpportunities, closeScanStep, closeProcessStep, getCurrentOpportunityState,
    shouldCloseOpportunity, updateActiveOpportunity, createClosedOpportunity,
    processClosedOpportunityStep, getAllPricesForSymbol, isPriceStale_eq,
    getPrice, mapGet, mapSet, mapDelete, getPriceKey, jsOrZero, defaultConfig,
    arbMaxHistorySize, c4S4, c4S5, c4Store3, c4TickA, c4TickB, c4TickB2,
    c4Act2, c4Closed, c4Opp1, List.filter_cons, List.filter_nil,
    cc1a, cc1b, cc2]

set_option maxHeartbeats 1000000 in
theorem c4_scan3_find :
    findArbitrageOpportunities defaultConfig c4S5 125000 = [] := by
  simp [findArbitrageOpportunities, getAllPricesForSymbol, isPriceStale_eq,
    getPrice, mapGet, getPriceKey, c4S5, c4Store3, c4TickA, c4TickB2,
    defaultConfig, List.filter_cons, List.filter_nil]

theorem c4_step_scan3 :
    step defaultConfig c4S4 (Op.scan 125000) = c4S5 := by
  simp only [step, detectArbitrageOpportunities, c4_scan3_closes, c4_scan3_find,
    List.foldl]

/-- C4 (code bug): the closed record reports the LAST updated prices as its
opening details.  The opportunity opened with priceB = 101, was updated to
priceB = 102, and the closed record then carries openPriceB = 102 even
though the field comment in the source says these are the details from when
the opportunity was first detected, and the spec says the same. -/
theorem open_snapshot_overwritten :
    c4Open.priceB = some 101 ∧
    (runTrace defaultConfig c4Trace).closedOpportunityHistory.map
      (fun closed => (closed.openPriceB, closed.openTimestamp, closed.closeReason)) =
      [((102 : ℚ), (1000 : ℤ), CloseReason.PRICE_CONVERGED)] ∧
    (102 : ℚ) ≠ 101 := by
  refine ⟨by norm_num [c4Open, calculateArbitrageOpportunity, c4TickA, c4TickB], ?_, by norm_num⟩
  have hrun : runTrace defaultConfig c4Trace = c4S5 := by
    show List.foldl (step defaultConfig) emptySysState c4Trace = c4S5
    rw [c4Trace]
    simp only [List.foldl]
    rw [c4_step_ticks, c4_step_scan1, c4_step_tick3, c4_step_scan2, c4_step_scan3]
  rw [hrun]
  norm_num [c4S5, c4Closed]

/-! ## Common-USDT-pair discovery (exchange.service.ts) -/
/-- Insert one element into a sorted accumulator, after every element that
may stay before it: the insertion-sort step of a stable sort. -/
def sIns (le : α → α → Bool) (x : α) : List α → List α
  | [] => [x]
  | y :: ys => if le y x then y :: sIns le x ys else x :: y :: ys

/-- Stable sort (models Array.prototype.sort, stable per the standard). -/
def sSort (le : α → α → Bool) (l : List α) : List α :=
  l.foldl (fun acc x => sIns le x acc) []

theorem sIns_perm (le : α → α → Bool) (x : α) (l : List α) :
    List.Perm (sIns le x l) (x :: l) := by
  induction l with
  | nil => rfl
  | cons y ys ih =>
    by_cases h : le y x = true
    · simp only [sIns, if_pos h]
      exact ((ih.cons y).trans (List.Perm.swap x y ys))
    · simp only [sIns, if_neg h]
      exact List.Perm.refl _

theorem sSort_perm (le : α → α → Bool) (l : List α) :
    List.Perm (sSort le l) l := by
  suffices h : ∀ (l acc : List α),
      List.Perm (l.foldl (fun acc x => sIns le x acc) acc) (acc ++ l) by
    simpa using h l []
  intro l
  induction l with
  | nil => intro acc; simp
  | cons x xs ih =>
    intro acc
    exact (ih (sIns le x acc)).trans
      (((sIns_perm le x acc).append_right xs).trans List.perm_middle.symm)

theorem sIns_pairwise (le : α → α → Bool)
    (htrans : ∀ a b c, le a b = true → le b c = true → le a c = true)
    (htotal : ∀ a b, le a b = true ∨ le b a = true)
    (x : α) (l : List α) (hl : l.Pairwise (fun a b => le a b = true)) :
    (sIns le x l).Pairwise (fun a b => le a b = true) := by
  induction l with
  | nil => simp [sIns]
  | cons y ys ih =>
    rcases List.pairwise_cons.mp hl with ⟨hy, hys⟩
    by_cases h : le y x = true
    · simp only [sIns, if_pos h]
      refine List.pairwise_cons.mpr ⟨?_, ih hys⟩
      intro z hz
      have hz2 := (sIns_perm le x ys).mem_iff.mp hz
      rcases List.mem_cons.mp hz2 with hz3 | hz3
      · subst hz3; exact h
      · exact hy z hz3
    · have hxy : le x y = true := by
        rcases htotal x y with h1 | h1
        · exact h1
        · exact absurd h1 h
      simp only [sIns, if_neg h]
      refine List.pairwise_cons.mpr ⟨?_, hl⟩
      intro z hz
      rcases List.mem_cons.mp hz with hz | hz
      · subst hz; exact hxy
      · exact htrans x y z hxy (hy z hz)

theorem sSort_pairwise (le : α → α → Bool)
    (htrans : ∀ a b c, le a b = true → le b c = true → le a c = true)
    (htotal : ∀ a b, le a b = true ∨ le b a = true)
    (l : List α) : (sSort le l).Pairwise (fun a b => le a b = true) := by
  suffices h : ∀ (l acc : List α), acc.Pairwise (fun a b => le a b = true) →
      (l.foldl (fun acc x => sIns le x acc) acc).Pairwise (fun a b => le a b = true) by
    exact h l [] List.Pairwise.nil
  intro l
  induction l with
  | nil => intro acc hacc; simpa using hacc
  | cons x xs ih =>
    intro acc hacc
    exact ih (sIns le x acc) (sIns_pairwise le htrans htotal x acc hacc)

/-- Insertion-ordered deduplication: the key-insertion order of a JS Map
filled by repeated set calls, equally the element order of a JS Set. -/
def jsSet (l : List String) : List String :=
  l.foldl (fun acc s => if s ∈ acc then acc else acc ++ [s]) []

theorem mem_jsSet (l : List String) (s : String) : s ∈ jsSet l ↔ s ∈ l := by
  suffices h : ∀ (l acc : List String),
      (s ∈ l.foldl (fun acc s => if s ∈ acc then acc else acc ++ [s]) acc ↔
        s ∈ acc ∨ s ∈ l) by
    simpa using h l []
  intro l
  induction l with
  | nil => intro acc; simp
  | cons x xs ih =>
    intro acc
    rw [List.foldl_cons, ih]
    by_cases hx : x ∈ acc
    · simp only [if_pos hx, List.mem_cons]
      constructor
      · rintro (h | h)
        · exact Or.inl h
        · exact Or.inr (Or.inr h)
      · rintro (h | h | h)
        · exact Or.inl h
        · subst h; exact Or.inl hx
        · exact Or.inr h
    · simp only [if_neg hx, List.mem_append, List.mem_singleton, List.mem_cons]
      tauto

/-- All symbols reported by the venues, venue by venue in discovery order. -/
def discoveredAllSyms (discoveredSymbols : List (String × List String)) : List String :=
  (discoveredSymbols.map Prod.snd).flatten

/-- ExchangeService.findCommonUSDTPairs: count venues per symbol (Map in
first-occurrence order), keep symbols with count at least the minimum, then
stable-sort by count descending (comparator countB - countA). -/
def findCommonUSDTPairs (discoveredSymbols : List (String × List String))
    (minExchangeCount : ℕ) : List String :=
  let allSyms := discoveredAllSyms discoveredSymbols
  let keys := jsSet allSyms
  let commonPairs := keys.filter (fun s => minExchangeCount ≤ allSyms.count s)
  sSort (fun a b => allSyms.count b ≤ allSyms.count a) commonPairs

/-- Catalog entry as consumed by the discovery (remaining fields unused). -/
structure ExchangeSymbolM where
  symbol : String
  quoteAsset : String
deriving DecidableEq, Repr

/-- Per-venue USDT-quoted symbol sets built by discoverCommonUSDTPairs. -/
def usdtDiscovered (catalogs : List (String × List ExchangeSymbolM)) :
    List (String × List String) :=
  catalogs.map (fun p =>
    (p.1, jsSet ((p.2.filter (fun s => s.quoteAsset == "USDT")).map (fun s => s.symbol))))

/-- ExchangeService.discoverCommonUSDTPairs: returns the new active
trading-pair list; on an empty result the configured list is kept. -/
def discoverCommonUSDTPairs (tradingPairs : List String)
    (catalogs : List (String × List ExchangeSymbolM))
    (minExchangeCount : ℕ) : List String :=
  let commonPairs := findCommonUSDTPairs (usdtDiscovered catalogs) minExchangeCount
  if commonPairs.isEmpty then tradingPairs else commonPairs

/-- Discovery input on which the tie order is not lexicographic. -/
def c7Discovered : List (String × List String) :=
  [("exchange1", ["B/USDT", "A/USDT"]), ("exchange2", ["B/USDT", "A/USDT"])]

/-- C7 counterexample: both symbols appear on both venues (equal counts);
the stable sort keeps discovery order B before A, not lexicographic order. -/
theorem findCommonUSDTPairs_not_lexicographic :
    findCommonUSDTPairs c7Discovered 2 = ["B/USDT", "A/USDT"] ∧
    findCommonUSDTPairs c7Discovered 2 ≠ ["A/USDT", "B/USDT"] := by
  decide

/-- C7 amended: the kept set is exactly the USDT-quoted symbols appearing on
at least minExchangeCount venues, emitted sorted by venue count descending
with ties in first-discovery order (stable sort, no lexicographic tiebreak),
and the configured static list is kept when the result is empty. -/
theorem findCommonUSDTPairs_spec (discoveredSymbols : List (String × List String))
    (minExchangeCount : ℕ) (tradingPairs : List String)
    (catalogs : List (String × List ExchangeSymbolM)) :
    (∀ s, s ∈ findCommonUSDTPairs discoveredSymbols minExchangeCount ↔
      (s ∈ discoveredAllSyms discoveredSymbols ∧
        minExchangeCount ≤ (discoveredAllSyms discoveredSymbols).count s)) ∧
    (findCommonUSDTPairs discoveredSymbols minExchangeCount).Pairwise
      (fun a b => (discoveredAllSyms discoveredSymbols).count b ≤
        (discoveredAllSyms discoveredSymbols).count a) ∧
    (discoverCommonUSDTPairs tradingPairs catalogs minExchangeCount =
      if findCommonUSDTPairs (usdtDiscovered catalogs) minExchangeCount = []
        then tradingPairs
        else findCommonUSDTPairs (usdtDiscovered catalogs) minExchangeCount) ∧
    (∀ s ∈ discoveredAllSyms (usdtDiscovered catalogs),
      ∃ venue entries e, (venue, entries) ∈ catalogs ∧ e ∈ entries ∧
        e.quoteAsset = "USDT" ∧ e.symbol = s) := by
  refine ⟨?_, ?_, ?_, ?_⟩
  · intro s
    unfold findCommonUSDTPairs
    rw [List.Perm.mem_iff (sSort_perm _ _)]
    rw [List.mem_filter, mem_jsSet]
    simp
  · unfold findCommonUSDTPairs
    have h := sSort_pairwise
      (fun a b => (discoveredAllSyms discoveredSymbols).count b ≤
        (discoveredAllSyms discoveredSymbols).count a)
      (by intro a b c h1 h2
          simp only [decide_eq_true_eq] at h1 h2 ⊢
          exact le_trans h2 h1)
      (by intro a b
          simp only [decide_eq_true_eq]
          exact le_total _ _)
      ((jsSet (discoveredAllSyms discoveredSymbols)).filter
        (fun s => minExchangeCount ≤ (discoveredAllSyms discoveredSymbols).count s))
    refine h.imp ?_
    intro a b hab
    simpa using hab
  · unfold discoverCommonUSDTPairs
    by_cases h : findCommonUSDTPairs (usdtDiscovered catalogs) minExchangeCount = []
    · simp [h]
    · have : (findCommonUSDTPairs (usdtDiscovered catalogs) minExchangeCount).isEmpty = false := by
        simpa [List.isEmpty_iff] using h
      simp [this, h]
  · intro s hs
    unfold discoveredAllSyms usdtDiscovered at hs
    rw [List.mem_flatten] at hs
    obtain ⟨l, hl, hsl⟩ := hs
    rw [List.mem_map] at hl
    obtain ⟨q, hq, hql⟩ := hl
    rw [List.mem_map] at hq
    obtain ⟨p, hp, hpq⟩ := hq
    rw [← hql, ← hpq] at hsl
    simp only [mem_jsSet, List.mem_map, List.mem_filter] at hsl
    obtain ⟨e, ⟨he, husdt⟩, hes⟩ := hsl
    refine ⟨p.1, p.2, e, ?_, he, by simpa using husdt, hes⟩
    rwa [Prod.mk.eta]

/-! ## Close-pass lemmas and C6 -/
theorem mapGet_mapDelete_self (m : List (String × α)) (k : String) :
    mapGet (mapDelete m k) k = none := by
  induction m with
  | nil => rfl
  | cons p rest ih =>
    by_cases h : p.1 = k
    · simp only [mapDelete, List.filter_cons, h]
      simp only [mapDelete] at ih
      simpa [h] using ih
    · simpa [mapDelete, List.filter_cons, h, mapGet, List.find?_cons,
        show (p.1 == k) = false by simpa using h] using ih

theorem mapGet_mapDelete_ne (m : List (String × α)) (k k2 : String) (h : k2 ≠ k) :
    mapGet (mapDelete m k2) k = mapGet m k := by
  induction m with
  | nil => rfl
  | cons p rest ih =>
    by_cases hp : p.1 = k2
    · subst hp
      have : (p.1 == k) = false := by simpa using h
      simpa [mapDelete, List.filter_cons, mapGet, List.find?_cons, this] using ih
    · by_cases hq : (p.1 == k) = true
      · simp [mapDelete, List.filter_cons, hp, mapGet, List.find?_cons, hq]
      · simpa [mapDelete, List.filter_cons, hp, mapGet, List.find?_cons, hq] using ih

theorem mapGet_foldl_delete_stable (l : List ClosedOpp)
    (m : List (String × ActiveOpp)) (k : String) (h : mapGet m k = none) :
    mapGet (l.foldl (fun m c => mapDelete m c.id) m) k = none := by
  induction l generalizing m with
  | nil => exact h
  | cons c rest ih =>
    rw [List.foldl_cons]
    apply ih
    induction m with
    | nil => rfl
    | cons p ps ihp =>
      by_cases hp : (p.1 == k) = true
      · simp [mapGet, List.find?_cons, hp] at h
      · have h' : mapGet ps k = none := by
          simpa [mapGet, List.find?_cons, hp] using h
        by_cases h2 : p.1 = c.id
        · simpa [mapDelete, List.filter_cons, h2] using ihp h'
        · simpa [mapDelete, List.filter_cons, h2, mapGet, List.find?_cons, hp]
            using ihp h'

theorem mapGet_foldl_delete_none (l : List ClosedOpp)
    (m : List (String × ActiveOpp)) (k : String) (h : ∃ c ∈ l, c.id = k) :
    mapGet (l.foldl (fun m c => mapDelete m c.id) m) k = none := by
  induction l generalizing m with
  | nil =>
    obtain ⟨c, hc, _⟩ := h
    cases hc
  | cons c rest ih =>
    obtain ⟨c', hc', hcid⟩ := h
    rcases List.mem_cons.mp hc' with rfl | hmem
    · rw [List.foldl_cons]
      apply mapGet_foldl_delete_stable
      rw [hcid]
      exact mapGet_mapDelete_self m k
    · exact ih _ ⟨c', hmem, hcid⟩

theorem mapGet_foldl_delete_ne (l : List ClosedOpp)
    (m : List (String × ActiveOpp)) (k : String) (h : ∀ c ∈ l, c.id ≠ k) :
    mapGet (l.foldl (fun m c => mapDelete m c.id) m) k = mapGet m k := by
  induction l generalizing m with
  | nil => rfl
  | cons c rest ih =>
    rw [List.foldl_cons, ih _ (fun c hc => h c (List.mem_cons_of_mem _ hc))]
    exact mapGet_mapDelete_ne m k c.id (h c (List.mem_cons_self c rest))

/-- Characterization of one entry of the first close-scan pass: the entry is
kept as-is unless it survives with fresh prices and no close condition, in
which case it is updated in place. -/
def closeScanEntry (cfg : ArbitrageConfig) (prices : PriceState) (now : ℤ)
    (p : String × ActiveOpp) : String × ActiveOpp :=
  match getCurrentOpportunityState prices p.2.symbol p.2.exchangeA p.2.exchangeB now with
  | none => p
  | some currentOpportunity =>
    if (shouldCloseOpportunity cfg currentOpportunity p.2 now).1 then p
    else (p.1, updateActiveOpportunity p.2 currentOpportunity now)

/-- Characterization of the close record an entry contributes, if any. -/
def closeScanClosed (cfg : ArbitrageConfig) (prices : PriceState) (now : ℤ)
    (p : String × ActiveOpp) : Option ClosedOpp :=
  match getCurrentOpportunityState prices p.2.symbol p.2.exchangeA p.2.exchangeB now with
  | none => some (createClosedOpportunity p.2 none none CloseReason.PRICE_CONVERGED now)
  | some currentOpportunity =>
    if (shouldCloseOpportunity cfg currentOpportunity p.2 now).1 then
      some (createClosedOpportunity p.2 currentOpportunity.priceA
        currentOpportunity.priceB (shouldCloseOpportunity cfg currentOpportunity p.2 now).2 now)
    else none

theorem closeScanStep_eq (cfg : ArbitrageConfig) (prices : PriceState) (now : ℤ)
    (acc : List (String × ActiveOpp) × List ClosedOpp) (p : String × ActiveOpp) :
    closeScanStep cfg prices now acc p =
      (acc.1 ++ [closeScanEntry cfg prices now p],
       acc.2 ++ (closeScanClosed cfg prices now p).toList) := by
  unfold closeScanStep closeScanEntry closeScanClosed
  cases h : getCurrentOpportunityState prices p.2.symbol p.2.exchangeA p.2.exchangeB now with
  | none => simp
  | some cur =>
    by_cases hc : (shouldCloseOpportunity cfg cur p.2 now).1 <;> simp [hc]

theorem closeScan_foldl_eq (cfg : ArbitrageConfig) (prices : PriceState) (now : ℤ)
    (l : List (String × ActiveOpp)) (acc : List (String × ActiveOpp) × List ClosedOpp) :
    l.foldl (closeScanStep cfg prices now) acc =
      (acc.1 ++ l.map (closeScanEntry cfg prices now),
       acc.2 ++ l.filterMap (closeScanClosed cfg prices now)) := by
  induction l generalizing acc with
  | nil => simp
  | cons p rest ih =>
    rw [List.foldl_cons, closeScanStep_eq, ih]
    cases h : closeScanClosed cfg prices now p <;>
      simp [List.filterMap_cons, h]

theorem closeScanEntry_fst (cfg : ArbitrageConfig) (prices : PriceState) (now : ℤ)
    (p : String × ActiveOpp) : (closeScanEntry cfg prices now p).1 = p.1 := by
  unfold closeScanEntry
  cases h : getCurrentOpportunityState prices p.2.symbol p.2.exchangeA p.2.exchangeB now with
  | none => rfl
  | some cur =>
    by_cases hc : (shouldCloseOpportunity cfg cur p.2 now).1 <;> simp [hc]

theorem closePass_active (cfg : ArbitrageConfig) (l : List ClosedOpp) (s : SysState) :
    (l.foldl (closeProcessStep cfg) s).activeOpportunities =
      l.foldl (fun m c => mapDelete m c.id) s.activeOpportunities := by
  induction l generalizing s with
  | nil => rfl
  | cons c rest ih =>
    rw [List.foldl_cons, List.foldl_cons, ih]
    congr 1
    unfold closeProcessStep processClosedOpportunityStep
    by_cases h : ((c.duration : ℚ) / 60000 < (cfg.minOpportunityDurationForCloseAlert : ℚ)) <;>
      simp [h]

theorem closePass_queue_mono (cfg : ArbitrageConfig) (l : List ClosedOpp)
    (s : SysState) (j : QueueJob) (h : j ∈ s.queue) :
    j ∈ (l.foldl (closeProcessStep cfg) s).queue := by
  induction l generalizing s with
  | nil => exact h
  | cons c rest ih =>
    rw [List.foldl_cons]
    apply ih
    unfold closeProcessStep processClosedOpportunityStep
    by_cases hc : ((c.duration : ℚ) / 60000 < (cfg.minOpportunityDurationForCloseAlert : ℚ)) <;>
      simp [hc, h]

theorem closePass_queue_add (cfg : ArbitrageConfig) (l : List ClosedOpp)
    (s : SysState) (c : ClosedOpp) (hc : c ∈ l)
    (hdur : ¬ ((c.duration : ℚ) / 60000 < (cfg.minOpportunityDurationForCloseAlert : ℚ))) :
    QueueJob.processClosedOpportunity c ⌊c.peakPriceDifferencePercent * 10⌋ ∈
      (l.foldl (closeProcessStep cfg) s).queue := by
  induction l generalizing s with
  | nil => cases hc
  | cons d rest ih =>
    rcases List.mem_cons.mp hc with rfl | hmem
    · rw [List.foldl_cons]
      apply closePass_queue_mono
      unfold closeProcessStep processClosedOpportunityStep
      simp [hdur]
    · exact ih _ hmem

/-- Arbitrage configuration with closed-opportunity alerts disabled. -/
def c6Config : ArbitrageConfig := { defaultConfig with sendClosedAlerts := false }

/-- Active opportunity whose prices are absent from the store. -/
def c6Act : ActiveOpp :=
  { symbol := "BTC/USDT", exchangeA := "binance", exchangeB := "bybit"
    priceA := some 100, priceB := some 101, priceDifference := some 1
    priceDifferencePercent := some (200 / 201), profit := some 1000
    action := Action.BUY_A_SELL_B, timestamp := 0
    id := "BTC/USDT-binance-bybit", openTimestamp := 0
    lastUpdatedTimestamp := 0, peakPriceDifferencePercent := 200 / 201
    peakProfit := 1000, peakTimestamp := 0, alertsSent := 1 }

/-- State holding one active opportunity and an empty price store. -/
def c6State : SysState :=
  { prices := emptyPriceState, recentAlerts := []
    activeOpportunities := [("BTC/USDT-binance-bybit", c6Act)]
    opportunityHistory := [], closedOpportunityHistory := [], queue := [] }

/-- C6 counterexample: with SEND_CLOSED_ALERTS disabled, the close pass
returns immediately, so an opportunity whose prices are missing is neither
closed nor removed during the scan — the close itself, not merely the CLOSE
event, is conditional on the configuration. -/
theorem closes_skipped_when_alerts_disabled :
    getCurrentOpportunityState c6State.prices c6Act.symbol c6Act.exchangeA
      c6Act.exchangeB 600000 = none ∧
    checkForClosedOpportunities c6Config c6State 600000 = c6State ∧
    mapGet (detectArbitrageOpportunities c6Config c6State 600000).activeOpportunities
      "BTC/USDT-binance-bybit" = some c6Act := by
  exact ⟨rfl, rfl, rfl⟩

/-- C6 amended: when SEND_CLOSED_ALERTS is true, an active opportunity whose
current prices are missing or stale is closed with reason PRICE_CONVERGED
and removed from the active map by the close pass, and the CLOSE event is
enqueued exactly under the additional minimum-duration condition; when
SEND_CLOSED_ALERTS is false the close pass does nothing at all. -/
theorem stale_close_requires_enabled_alerts (cfg cfg2 : ArbitrageConfig)
    (st st2 : SysState) (now now2 : ℤ) (id : String) (act : ActiveOpp)
    (hsend : cfg.sendClosedAlerts = true)
    (hmem : (id, act) ∈ st.activeOpportunities)
    (hid : act.id = id)
    (hstale : getCurrentOpportunityState st.prices act.symbol act.exchangeA
      act.exchangeB now = none)
    (hsend2 : cfg2.sendClosedAlerts = false) :
    mapGet (checkForClosedOpportunities cfg st now).activeOpportunities id = none ∧
    (¬ (((createClosedOpportunity act none none CloseReason.PRICE_CONVERGED now).duration : ℚ)
        / 60000 < (cfg.minOpportunityDurationForCloseAlert : ℚ)) →
      QueueJob.processClosedOpportunity
        (createClosedOpportunity act none none CloseReason.PRICE_CONVERGED now)
        ⌊(createClosedOpportunity act none none
            CloseReason.PRICE_CONVERGED now).peakPriceDifferencePercent * 10⌋ ∈
        (checkForClosedOpportunities cfg st now).queue) ∧
    checkForClosedOpportunities cfg2 st2 now2 = st2 := by
  have hopen : checkForClosedOpportunities cfg st now =
      (st.activeOpportunities.filterMap (closeScanClosed cfg st.prices now)).foldl
        (closeProcessStep cfg)
        { st with activeOpportunities :=
            st.activeOpportunities.map (closeScanEntry cfg st.prices now) } := by
    unfold checkForClosedOpportunities
    rw [hsend]
    simp only [Bool.true_eq_false, if_false]
    rw [closeScan_foldl_eq]
    simp
  have hclosedmem : createClosedOpportunity act none none CloseReason.PRICE_CONVERGED now ∈
      st.activeOpportunities.filterMap (closeScanClosed cfg st.prices now) := by
    rw [List.mem_filterMap]
    refine ⟨(id, act), hmem, ?_⟩
    unfold closeScanClosed
    rw [hstale]
  refine ⟨?_, ?_, ?_⟩
  · rw [hopen, closePass_active]
    apply mapGet_foldl_delete_none
    exact ⟨_, hclosedmem, hid⟩
  · intro hdur
    rw [hopen]
    exact closePass_queue_add cfg _ _ _ hclosedmem hdur
  · unfold checkForClosedOpportunities
    rw [hsend2]
    simp

theorem stale_close_requires_enabled_alerts_witness :
    mapGet (checkForClosedOpportunities defaultConfig c6State 600000).activeOpportunities
      "BTC/USDT-binance-bybit" = none ∧
    QueueJob.processClosedOpportunity
      (createClosedOpportunity c6Act none none CloseReason.PRICE_CONVERGED 600000)
      ⌊(createClosedOpportunity c6Act none none
          CloseReason.PRICE_CONVERGED 600000).peakPriceDifferencePercent * 10⌋ ∈
      (checkForClosedOpportunities defaultConfig c6State 600000).queue ∧
    checkForClosedOpportunities c6Config c6State 600000 = c6State := by
  have h := stale_close_requires_enabled_alerts defaultConfig c6Config c6State c6State
    600000 600000 "BTC/USDT-binance-bybit" c6Act rfl (by simp [c6State]) rfl rfl rfl
  exact ⟨h.1, h.2.1 (by norm_num [createClosedOpportunity, c6Act, defaultConfig]), h.2.2⟩

/-! ## Scan-phase lemmas and C5 -/
theorem createClosedOpportunity_id (act : ActiveOpp) (a b : Option ℚ)
    (r : CloseReason) (t : ℤ) : (createClosedOpportunity act a b r t).id = act.id := rfl

/-- Lookup in a key-preserving mapped association list. -/
theorem mapGet_map_keypres (f : (String × ActiveOpp) → (String × ActiveOpp))
    (hf : ∀ p, (f p).1 = p.1) (m : List (String × ActiveOpp)) (k : String) :
    mapGet (m.map f) k = (m.find? (fun p => p.1 == k)).map (fun p => (f p).2) := by
  induction m with
  | nil => rfl
  | cons p rest ih =>
    by_cases hp : (p.1 == k) = true
    · simp [mapGet, List.find?_cons, hf, hp]
    · simpa [mapGet, List.find?_cons, hf, hp] using ih

/-- A successful mapGet pins down the entry found. -/
theorem mapGet_some_find (m : List (String × ActiveOpp)) (k : String) (act : ActiveOpp)
    (h : mapGet m k = some act) : m.find? (fun p => p.1 == k) = some (k, act) := by
  unfold mapGet at h
  cases hf : m.find? (fun p => p.1 == k) with
  | none => rw [hf] at h; cases h
  | some p =>
    rw [hf] at h
    have hk := List.find?_some hf
    have h1 : p.1 = k := by simpa using hk
    have h2 : p.2 = act := by simpa using h
    cases p
    simp_all

theorem closeProcessStep_recentAlerts (cfg : ArbitrageConfig) (s : SysState)
    (c : ClosedOpp) : (closeProcessStep cfg s c).recentAlerts = s.recentAlerts := by
  unfold closeProcessStep processClosedOpportunityStep
  by_cases h : ((c.duration : ℚ) / 60000 < (cfg.minOpportunityDurationForCloseAlert : ℚ)) <;>
    simp [h]

theorem closePass_recentAlerts (cfg : ArbitrageConfig) (l : List ClosedOpp)
    (s : SysState) : (l.foldl (closeProcessStep cfg) s).recentAlerts = s.recentAlerts := by
  induction l generalizing s with
  | nil => rfl
  | cons c rest ih => rw [List.foldl_cons, ih, closeProcessStep_recentAlerts]

/-- The close pass never touches the cooldown map. -/
theorem checkCloses_recentAlerts (cfg : ArbitrageConfig) (st : SysState) (now : ℤ) :
    (checkForClosedOpportunities cfg st now).recentAlerts = st.recentAlerts := by
  unfold checkForClosedOpportunities
  by_cases hs : cfg.sendClosedAlerts = false
  · simp [hs]
  · simp only [hs, if_false]
    exact closePass_recentAlerts cfg _ _

/-- Every opportunity the find pass returns passed the validation against
the cooldown map of the state it ran on. -/
theorem find_all_valid (cfg : ArbitrageConfig) (st : SysState) (now : ℤ) :
    ∀ o ∈ findArbitrageOpportunities cfg st now,
      isValidArbitrageOpportunity cfg st.recentAlerts now o = true := by
  unfold findArbitrageOpportunities
  suffices h : ∀ (symbols : List String) (acc : List ArbOpp),
      (∀ o ∈ acc, isValidArbitrageOpportunity cfg st.recentAlerts now o = true) →
      ∀ o ∈ symbols.foldl (fun opportunities symbol =>
          let prices := getAllPricesForSymbol st.prices symbol
          if prices.length < 2 then opportunities
          else
            let freshPrices := prices.filter
              (fun price => !(isPriceStale st.prices symbol price.exchange now))
            if freshPrices.length < 2 then opportunities
            else
              opportunities ++
                ((allPairs freshPrices).map
                  (fun pq => calculateArbitrageOpportunity pq.1 pq.2 now)).filter
                  (isValidArbitrageOpportunity cfg st.recentAlerts now)) acc,
        isValidArbitrageOpportunity cfg st.recentAlerts now o = true by
    exact h cfg.tradingPairs [] (by intro o ho; cases ho)
  intro symbols
  induction symbols with
  | nil => intro acc hacc o ho; exact hacc o ho
  | cons symbol rest ih =>
    intro acc hacc o ho
    rw [List.foldl_cons] at ho
    refine ih _ ?_ o ho
    intro o2 ho2
    simp only at ho2
    by_cases h1 : (getAllPricesForSymbol st.prices symbol).length < 2
    · rw [if_pos h1] at ho2
      exact hacc o2 ho2
    · rw [if_neg h1] at ho2
      by_cases h2 : ((getAllPricesForSymbol st.prices symbol).filter
          (fun price => !(isPriceStale st.prices symbol price.exchange now))).length < 2
      · rw [if_pos h2] at ho2
        exact hacc o2 ho2
      · rw [if_neg h2] at ho2
        rcases List.mem_append.mp ho2 with h3 | h3
        · exact hacc o2 h3
        · exact List.of_mem_filter h3

/-- Validation rejects any opportunity whose alert key is in cooldown
(recorded time nonzero and younger than the cooldown window). -/
theorem isValid_false_of_cooldown (cfg : ArbitrageConfig)
    (recentAlerts : List (String × ℤ)) (now : ℤ) (o : ArbOpp) (v : ℤ)
    (hv : mapGet recentAlerts (alertKey o) = some v) (hv0 : v ≠ 0)
    (hcd : now - v < cooldownMs cfg) :
    isValidArbitrageOpportunity cfg recentAlerts now o = false := by
  unfold isValidArbitrageOpportunity
  rcases o.priceA with _ | a <;> rcases o.priceB with _ | b <;>
    rcases o.priceDifference with _ | d <;>
    rcases o.priceDifferencePercent with _ | pct <;>
    rcases o.profit with _ | profit <;> try rfl
  rw [hv]
  by_cases h1 : o.action = Action.INVALID
  · simp [h1]
  · simp only [if_neg h1]
    by_cases h2 : pct < cfg.thresholdPercent
    · simp [h2]
    · simp only [if_neg h2]
      by_cases h3 : profit < cfg.minProfitUsd
      · simp [h3]
      · simp only [if_neg h3]
        simp [hv0, hcd]

/-- One processed opportunity appends at most its own OPEN_OR_UPDATE job. -/
theorem process_queue_extend (cfg : ArbitrageConfig) (st : SysState) (o : ArbOpp)
    (now : ℤ) :
    (processArbitrageOpportunity cfg st o now).queue = st.queue ∨
    (processArbitrageOpportunity cfg st o now).queue =
      st.queue ++ [QueueJob.processOpportunity o (jsFloorPriority o.priceDifferencePercent)] := by
  cases h : mapGet st.activeOpportunities (generateOpportunityId o) with
  | none =>
    right
    simp [processArbitrageOpportunity, h]
  | some act =>
    simp only [processArbitrageOpportunity, h]
    split_ifs with hc
    · right
      rfl
    · left
      rfl

/-- Every job added by the find-and-process phase of a scan is the
OPEN_OR_UPDATE job of one of the validated opportunities of that scan. -/
theorem detect_queue_events (cfg : ArbitrageConfig) (st : SysState) (now : ℤ) :
    ∀ j ∈ (detectArbitrageOpportunities cfg st now).queue,
      j ∈ (checkForClosedOpportunities cfg st now).queue ∨
      ∃ o ∈ findArbitrageOpportunities cfg (checkForClosedOpportunities cfg st now) now,
        j = QueueJob.processOpportunity o (jsFloorPriority o.priceDifferencePercent) := by
  unfold detectArbitrageOpportunities
  suffices h : ∀ (l : List ArbOpp) (s : SysState) (j : QueueJob),
      j ∈ (l.foldl (fun s o => processArbitrageOpportunity cfg s o now) s).queue →
      j ∈ s.queue ∨ ∃ o ∈ l,
        j = QueueJob.processOpportunity o (jsFloorPriority o.priceDifferencePercent) by
    intro j hj
    rcases h _ _ j hj with h1 | ⟨o, ho, rfl⟩
    · exact Or.inl h1
    · exact Or.inr ⟨o, ho, rfl⟩
  intro l
  induction l with
  | nil => intro s j hj; exact Or.inl hj
  | cons o rest ih =>
    intro s j hj
    rw [List.foldl_cons] at hj
    rcases ih _ j hj with h1 | ⟨o2, ho2, rfl⟩
    · rcases process_queue_extend cfg s o now with he | he
      · rw [he] at h1
        exact Or.inl h1
      · rw [he] at h1
        rcases List.mem_append.mp h1 with h2 | h2
        · exact Or.inl h2
        · exact Or.inr ⟨o, List.mem_cons_self o rest, List.mem_singleton.mp h2⟩
    · exact Or.inr ⟨o2, List.mem_cons_of_mem _ ho2, rfl⟩

/-- Lookup after the close pass for an entry that survives with an update. -/
theorem closeScan_update_mapGet (cfg : ArbitrageConfig) (st : SysState) (now : ℤ)
    (id : String) (act : ActiveOpp) (cur : ArbOpp)
    (hsend : cfg.sendClosedAlerts = true)
    (hget : mapGet st.activeOpportunities id = some act)
    (hnodup : (st.activeOpportunities.map Prod.fst).Nodup)
    (hcons : ∀ p ∈ st.activeOpportunities, (p.2 : ActiveOpp).id = p.1)
    (hcur : getCurrentOpportunityState st.prices act.symbol act.exchangeA
      act.exchangeB now = some cur)
    (hnc : (shouldCloseOpportunity cfg cur act now).1 = false) :
    mapGet (checkForClosedOpportunities cfg st now).activeOpportunities id =
      some (updateActiveOpportunity act cur now) := by
  have hfind := mapGet_some_find st.activeOpportunities id act hget
  have hmem : (id, act) ∈ st.activeOpportunities := List.mem_of_find?_eq_some hfind
  have hopen : checkForClosedOpportunities cfg st now =
      (st.activeOpportunities.filterMap (closeScanClosed cfg st.prices now)).foldl
        (closeProcessStep cfg)
        { st with activeOpportunities :=
            st.activeOpportunities.map (closeScanEntry cfg st.prices now) } := by
    unfold checkForClosedOpportunities
    rw [hsend]
    simp only [Bool.true_eq_false, if_false]
    rw [closeScan_foldl_eq]
    simp
  rw [hopen, closePass_active]
  rw [mapGet_foldl_delete_ne]
  · rw [mapGet_map_keypres _ (closeScanEntry_fst cfg st.prices now), hfind]
    simp [closeScanEntry, hcur, hnc]
  · intro c hc
    rw [List.mem_filterMap] at hc
    obtain ⟨p, hp, hpc⟩ := hc
    have hcid : c.id = p.1 := by
      unfold closeScanClosed at hpc
      rcases hg : getCurrentOpportunityState st.prices p.2.symbol p.2.exchangeA
          p.2.exchangeB now with _ | cur2
      · rw [hg] at hpc
        simp only [Option.some.injEq] at hpc
        rw [← hpc, createClosedOpportunity_id]
        exact hcons p hp
      · rw [hg] at hpc
        by_cases hcl : (shouldCloseOpportunity cfg cur2 p.2 now).1
        · simp only [hcl, if_true, Option.some.injEq] at hpc
          rw [← hpc, createClosedOpportunity_id]
          exact hcons p hp
        · simp [hcl] at hpc
    rw [hcid]
    intro hpk
    have hpeq : p = (id, act) := List.inj_on_of_nodup_map hnodup hp hmem hpk
    rw [hpeq] at hpc
    simp [closeScanClosed, hcur, hnc] at hpc

/-- Arbitrage configuration with closed-alert processing disabled. -/
def c5Config : ArbitrageConfig := { defaultConfig with sendClosedAlerts := false }

/-- The current opportunity of the cooldown scenario (spread 200/101). -/
def c5Cur : ArbOpp := calculateArbitrageOpportunity c4TickA c4TickB2 2000

/-- C5 counterexample: the pair qualifies on thresholds (it is valid when no
alert is recorded) and is in cooldown in the actual state; with
SEND_CLOSED_ALERTS disabled the scan leaves the whole state unchanged, so
the active opportunity is NOT updated (lastUpdatedTimestamp stays 1000). -/
theorem cooldown_no_update_when_alerts_disabled :
    isValidArbitrageOpportunity c5Config [] 2000 c5Cur = true ∧
    isValidArbitrageOpportunity c5Config [("BTC/USDT-binance-bybit", 1000)] 2000
      c5Cur = false ∧
    detectArbitrageOpportunities c5Config { c4S2 with prices := c4Store3 } 2000 =
      { c4S2 with prices := c4Store3 } ∧
    (mapGet { c4S2 with prices := c4Store3 }.activeOpportunities
      "BTC/USDT-binance-bybit").map (fun a => a.lastUpdatedTimestamp) = some 1000 ∧
    (1000 : ℤ) ≠ 2000 := by
  have e1 : |(100:ℚ) - 102| = 2 := by norm_num
  have e3 : ((2:ℚ) * 1000) = 2000 := by norm_num
  have hp : ((4:ℚ) / (100 + 102) * 100) = 200 / 101 := by norm_num
  have hp2 : ((2:ℚ) / ((100 + 102) / 2) * 100) = 200 / 101 := by norm_num
  have c1 : ((100:ℚ) ≤ 0 ∨ (102:ℚ) ≤ 0) = False := by norm_num
  have c2 : ((100:ℚ) < 102) = True := by norm_num
  have c9 : ((200:ℚ)/101 < 7/10) = False := by norm_num
  have c10 : ((2000:ℚ) < 10) = False := by norm_num
  refine ⟨?_, ?_, ?_, rfl, by decide⟩
  · simp [c5Cur, calculateArbitrageOpportunity, isValidArbitrageOpportunity,
      alertKey, alertKeyParts, mapGet, cooldownMs, c5Config, defaultConfig,
      c4TickA, c4TickB2, e1, e3, hp, hp2, c1, c2, c9, c10]
  · simp [c5Cur, calculateArbitrageOpportunity, isValidArbitrageOpportunity,
      alertKey, alertKeyParts, mapGet, cooldownMs, c5Config, defaultConfig,
      c4TickA, c4TickB2, List.find?, e1, e3, hp, hp2, c1, c2, c9, c10]
  · have hfind : findArbitrageOpportunities c5Config
        { c4S2 with prices := c4Store3 } 2000 = [] := by
      simp [findArbitrageOpportunities, getAllPricesForSymbol, isPriceStale_eq,
        getPrice, mapGet, getPriceKey, allPairs, calculateArbitrageOpportunity,
        isValidArbitrageOpportunity, alertKey, alertKeyParts, cooldownMs,
        c5Config, defaultConfig, c4S2, c4Store3, c4TickA, c4TickB2,
        List.filter_cons, List.filter_nil, e1, e3, hp, hp2, c1, c2, c9, c10]
    have hskip : checkForClosedOpportunities c5Config
        { c4S2 with prices := c4Store3 } 2000 = { c4S2 with prices := c4Store3 } := by
      unfold checkForClosedOpportunities
      simp [c5Config]
    unfold detectArbitrageOpportunities
    simp only [hskip, hfind, List.foldl]

/-- C5 amended: when a venue pair qualifies on thresholds but its alert key
is in cooldown, no OPEN_OR_UPDATE is enqueued for it in the scan, because
validation rejects it (second conjunct), the find pass only emits validated
opportunities (third conjunct), and every job the scan adds is the
OPEN_OR_UPDATE of an emitted opportunity (fourth conjunct).  The active
opportunity is nevertheless updated, but by the close-check pass, and only
when SEND_CLOSED_ALERTS is true and no close condition fires (first
conjunct); with SEND_CLOSED_ALERTS false the record is not touched at all. -/
theorem cooldown_update_via_close_pass (cfg : ArbitrageConfig) (st : SysState)
    (now : ℤ) (id : String) (act : ActiveOpp) (cur : ArbOpp) (o : ArbOpp) (v : ℤ)
    (hsend : cfg.sendClosedAlerts = true)
    (hget : mapGet st.activeOpportunities id = some act)
    (hnodup : (st.activeOpportunities.map Prod.fst).Nodup)
    (hcons : ∀ p ∈ st.activeOpportunities, (p.2 : ActiveOpp).id = p.1)
    (hcur : getCurrentOpportunityState st.prices act.symbol act.exchangeA
      act.exchangeB now = some cur)
    (hnc : (shouldCloseOpportunity cfg cur act now).1 = false)
    (hv : mapGet st.recentAlerts (alertKey o) = some v)
    (hv0 : v ≠ 0) (hcd : now - v < cooldownMs cfg) :
    mapGet (checkForClosedOpportunities cfg st now).activeOpportunities id =
      some (updateActiveOpportunity act cur now) ∧
    isValidArbitrageOpportunity cfg st.recentAlerts now o = false ∧
    (∀ o2 ∈ findArbitrageOpportunities cfg (checkForClosedOpportunities cfg st now) now,
      isValidArbitrageOpportunity cfg st.recentAlerts now o2 = true) ∧
    (∀ j ∈ (detectArbitrageOpportunities cfg st now).queue,
      j ∈ (checkForClosedOpportunities cfg st now).queue ∨
      ∃ o2 ∈ findArbitrageOpportunities cfg (checkForClosedOpportunities cfg st now) now,
        j = QueueJob.processOpportunity o2 (jsFloorPriority o2.priceDifferencePercent)) := by
  refine ⟨closeScan_update_mapGet cfg st now id act cur hsend hget hnodup hcons hcur hnc,
    isValid_false_of_cooldown cfg st.recentAlerts now o v hv hv0 hcd, ?_,
    detect_queue_events cfg st now⟩
  intro o2 ho2
  have h2 := find_all_valid cfg (checkForClosedOpportunities cfg st now) now o2 ho2
  rwa [checkCloses_recentAlerts] at h2

theorem cooldown_update_via_close_pass_witness :
    mapGet (checkForClosedOpportunities defaultConfig
        { c4S2 with prices := c4Store3 } 2000).activeOpportunities
      "BTC/USDT-binance-bybit" = some (updateActiveOpportunity c4Act1 c5Cur 2000) ∧
    isValidArbitrageOpportunity defaultConfig
      { c4S2 with prices := c4Store3 }.recentAlerts 2000 c5Cur = false ∧
    (∀ o2 ∈ findArbitrageOpportunities defaultConfig
        (checkForClosedOpportunities defaultConfig
          { c4S2 with prices := c4Store3 } 2000) 2000,
      isValidArbitrageOpportunity defaultConfig
        { c4S2 with prices := c4Store3 }.recentAlerts 2000 o2 = true) ∧
    (∀ j ∈ (detectArbitrageOpportunities defaultConfig
        { c4S2 with prices := c4Store3 } 2000).queue,
      j ∈ (checkForClosedOpportunities defaultConfig
        { c4S2 with prices := c4Store3 } 2000).queue ∨
      ∃ o2 ∈ findArbitrageOpportunities defaultConfig
          (checkForClosedOpportunities defaultConfig
            { c4S2 with prices := c4Store3 } 2000) 2000,
        j = QueueJob.processOpportunity o2 (jsFloorPriority o2.priceDifferencePercent)) := by
  have hcur : getCurrentOpportunityState
      ({ c4S2 with prices := c4Store3 } : SysState).prices c4Act1.symbol
      c4Act1.exchangeA c4Act1.exchangeB 2000 = some c5Cur := by
    simp [getCurrentOpportunityState, getAllPricesForSymbol, isPriceStale_eq,
      getPrice, mapGet, getPriceKey, c4Store3, c4TickA, c4TickB2, c4Act1, c5Cur,
      List.filter_cons, List.filter_nil, List.find?]
  have hnc : (shouldCloseOpportunity defaultConfig c5Cur c4Act1 2000).1 = false := by
    have e1 : |(100:ℚ) - 102| = 2 := by norm_num
    have hp2 : ((2:ℚ) / ((100 + 102) / 2) * 100) = 200 / 101 := by norm_num
    have c6a : ((200:ℚ)/101 < 1/2) = False := by norm_num
    have c6b : ((200:ℚ)/101 < 2⁻¹) = False := by norm_num
    have c7a : ((200:ℚ)/101 < 1/10) = False := by norm_num
    have c7b : ((200:ℚ)/101 < 10⁻¹) = False := by norm_num
    have c1 : ((100:ℚ) ≤ 0 ∨ (102:ℚ) ≤ 0) = False := by norm_num
    simp [shouldCloseOpportunity, c5Cur, calculateArbitrageOpportunity, c4TickA,
      c4TickB2, c4Act1, defaultConfig, e1, hp2, c6a, c6b, c7a, c7b, c1]
  exact cooldown_update_via_close_pass defaultConfig
    { c4S2 with prices := c4Store3 } 2000 "BTC/USDT-binance-bybit" c4Act1 c5Cur
    c5Cur 1000 rfl rfl (by decide) (by decide) hcur hnc rfl (by decide) (by decide)

/-! ## C1: the per-id alert cooldown across a trace -/

/-- A name with no dash: symbols and venue identifiers of this system. -/
def hyphenFree (s : String) : Prop := ('-' : Char) ∉ s.data

instance (s : String) : Decidable (hyphenFree s) := by
  unfold hyphenFree
  infer_instance

theorem append_sep_inj_list (sep : Char) :
    ∀ (xs xs2 ys ys2 : List Char), sep ∉ xs → sep ∉ xs2 →
    xs ++ sep :: ys = xs2 ++ sep :: ys2 → xs = xs2 ∧ ys = ys2 := by
  intro xs
  induction xs with
  | nil =>
    intro xs2 ys ys2 _ h2 heq
    cases xs2 with
    | nil =>
      simp only [List.nil_append, List.cons.injEq] at heq
      exact ⟨rfl, heq.2⟩
    | cons z zs =>
      exfalso
      simp only [List.nil_append, List.cons_append, List.cons.injEq] at heq
      exact h2 (by rw [heq.1]; exact List.mem_cons_self z zs)
  | cons x xs ih =>
    intro xs2 ys ys2 h1 h2 heq
    cases xs2 with
    | nil =>
      exfalso
      simp only [List.cons_append, List.nil_append, List.cons.injEq] at heq
      exact h1 (by rw [heq.1]; exact List.mem_cons_self sep xs)
    | cons z zs =>
      simp only [List.cons_append, List.cons.injEq] at heq
      have hx : sep ∉ xs := fun hm => h1 (List.mem_cons_of_mem x hm)
      have hz : sep ∉ zs := fun hm => h2 (List.mem_cons_of_mem z hm)
      obtain ⟨hxs, hys⟩ := ih zs ys ys2 hx hz heq.2
      exact ⟨by rw [heq.1, hxs], hys⟩

theorem String_append_data (a b : String) : (a ++ b).data = a.data ++ b.data :=
  String.data_append a b

/-- Injectivity of the dash-joined pair on dash-free left components. -/
theorem sep_pair_inj (a b c d : String) (ha : hyphenFree a) (hc : hyphenFree c)
    (h : a ++ "-" ++ b = c ++ "-" ++ d) : a = c ∧ b = d := by
  have hdata : a.data ++ '-' :: b.data = c.data ++ '-' :: d.data := by
    have := congrArg String.data h
    simpa [String_append_data] using this
  obtain ⟨h1, h2⟩ := append_sep_inj_list '-' a.data c.data b.data d.data ha hc hdata
  exact ⟨String.ext h1, String.ext h2⟩

/-- Injectivity of the alert key on dash-free components. -/
theorem alertKeyParts_inj (s1 ea1 eb1 s2 ea2 eb2 : String)
    (hs1 : hyphenFree s1) (ha1 : hyphenFree ea1)
    (hs2 : hyphenFree s2) (ha2 : hyphenFree ea2)
    (h : alertKeyParts s1 ea1 eb1 = alertKeyParts s2 ea2 eb2) :
    s1 = s2 ∧ ea1 = ea2 ∧ eb1 = eb2 := by
  unfold alertKeyParts at h
  have hassoc : s1 ++ "-" ++ (ea1 ++ "-" ++ eb1) = s2 ++ "-" ++ (ea2 ++ "-" ++ eb2) := by
    have e1 : s1 ++ "-" ++ ea1 ++ "-" ++ eb1 = s1 ++ "-" ++ (ea1 ++ "-" ++ eb1) := by
      simp [String.append_assoc]
    have e2 : s2 ++ "-" ++ ea2 ++ "-" ++ eb2 = s2 ++ "-" ++ (ea2 ++ "-" ++ eb2) := by
      simp [String.append_assoc]
    rw [← e1, ← e2]
    exact h
  obtain ⟨hs, hrest⟩ := sep_pair_inj s1 (ea1 ++ "-" ++ eb1) s2 (ea2 ++ "-" ++ eb2) hs1 hs2 hassoc
  obtain ⟨hea, heb⟩ := sep_pair_inj ea1 eb1 ea2 eb2 ha1 ha2 hrest
  exact ⟨hs, hea, heb⟩

/-- The sorted pair is one of the two argument orders. -/
theorem sortPair_cases (a b : String) : sortPair a b = (a, b) ∨ sortPair a b = (b, a) := by
  unfold sortPair
  by_cases h : jsStrLt b a = true
  · simp [h]
  · simp [h]

/-- Equal sorted pairs come from equal unordered pairs. -/
theorem sortPair_eq_cases (a b c d : String) (h : sortPair a b = sortPair c d) :
    (a = c ∧ b = d) ∨ (a = d ∧ b = c) := by
  rcases sortPair_cases a b with h1 | h1 <;> rcases sortPair_cases c d with h2 | h2 <;>
    rw [h1, h2] at h <;> simp only [Prod.mk.injEq] at h
  · exact Or.inl h
  · exact Or.inr h
  · exact Or.inr ⟨h.2, h.1⟩
  · exact Or.inl ⟨h.2, h.1⟩

/-- Injectivity of the opportunity id: equal ids mean equal instrument and
equal unordered venue pair (all names dash-free). -/
theorem generateOpportunityIdParts_inj (s1 ea1 eb1 s2 ea2 eb2 : String)
    (hs1 : hyphenFree s1) (ha1 : hyphenFree ea1) (hb1 : hyphenFree eb1)
    (hs2 : hyphenFree s2) (ha2 : hyphenFree ea2) (hb2 : hyphenFree eb2)
    (h : generateOpportunityIdParts s1 ea1 eb1 = generateOpportunityIdParts s2 ea2 eb2) :
    s1 = s2 ∧ sortPair ea1 eb1 = sortPair ea2 eb2 := by
  unfold generateOpportunityIdParts at h
  have hfst1 : hyphenFree (sortPair ea1 eb1).1 := by
    rcases sortPair_cases ea1 eb1 with h1 | h1 <;> rw [h1] <;> assumption
  have hfst2 : hyphenFree (sortPair ea2 eb2).1 := by
    rcases sortPair_cases ea2 eb2 with h1 | h1 <;> rw [h1] <;> assumption
  have h2 : alertKeyParts s1 (sortPair ea1 eb1).1 (sortPair ea1 eb1).2 =
      alertKeyParts s2 (sortPair ea2 eb2).1 (sortPair ea2 eb2).2 := h
  obtain ⟨hs, hea, heb⟩ := alertKeyParts_inj _ _ _ _ _ _ hs1 hfst1 hs2 hfst2 h2
  refine ⟨hs, ?_⟩
  cases hsp1 : sortPair ea1 eb1
  cases hsp2 : sortPair ea2 eb2
  rw [hsp1, hsp2] at hea heb
  simp only at hea heb
  rw [hea, heb]


/-! Stage 2: events, store well-formedness, venue order in the store -/

/-- The OPEN_OR_UPDATE events currently enqueued, in queue order. -/
def openEvents (q : List QueueJob) : List ArbOpp :=
  q.filterMap (fun j => match j with
    | QueueJob.processOpportunity o _ => some o
    | QueueJob.processClosedOpportunity _ _ => none)

/-- The enqueued OPEN_OR_UPDATE events carrying one exact ordered triple of
instrument and venues. -/
def tripleEvents (s ea eb : String) (q : List QueueJob) : List ArbOpp :=
  (openEvents q).filter
    (fun o => o.symbol == s && o.exchangeA == ea && o.exchangeB == eb)

theorem openEvents_append (q1 q2 : List QueueJob) :
    openEvents (q1 ++ q2) = openEvents q1 ++ openEvents q2 :=
  List.filterMap_append q1 q2 _

theorem openEvents_close (c : ClosedOpp) (p : ℤ) :
    openEvents [QueueJob.processClosedOpportunity c p] = [] := rfl

theorem openEvents_open (o : ArbOpp) (p : ℤ) :
    openEvents [QueueJob.processOpportunity o p] = [o] := rfl

theorem tripleEvents_of_openEvents_eq (s ea eb : String) (q1 q2 : List QueueJob)
    (h : openEvents q1 = openEvents q2) :
    tripleEvents s ea eb q1 = tripleEvents s ea eb q2 := by
  unfold tripleEvents
  rw [h]

/-- Dash-free names of a tick. -/
def TickHF (pd : PriceData) : Prop := hyphenFree pd.symbol ∧ hyphenFree pd.exchange

/-- Dash-free names of an opportunity record. -/
def OppHF (o : ArbOpp) : Prop :=
  hyphenFree o.symbol ∧ hyphenFree o.exchangeA ∧ hyphenFree o.exchangeB

/-- Every store entry is keyed by its own dash-free names. -/
def StoreKeyed (store : List (String × PriceData)) : Prop :=
  ∀ p ∈ store, p.1 = getPriceKey p.2.symbol p.2.exchange ∧ TickHF p.2

/-- Store well-formedness: keyed entries and distinct keys. -/
def StoreWF (store : List (String × PriceData)) : Prop :=
  StoreKeyed store ∧ (store.map Prod.fst).Nodup

/-- The (symbol, venue) name pairs of the store, in store order. -/
def storeProj (store : List (String × PriceData)) : List (String × String) :=
  store.map (fun p => (p.2.symbol, p.2.exchange))

/-- The two venues of an ordered triple occur in this order in the store. -/
def PairOrd (store : List (String × PriceData)) (s ea eb : String) : Prop :=
  [(s, ea), (s, eb)].Sublist (storeProj store)

theorem storeProj_nodup (store : List (String × PriceData)) (h : StoreWF store) :
    (storeProj store).Nodup := by
  have h1 : store.map Prod.fst =
      (storeProj store).map (fun q => getPriceKey q.1 q.2) := by
    rw [storeProj, List.map_map]
    exact List.map_congr_left (fun p hp => (h.1 p hp).1)
  exact List.Nodup.of_map _ (h1 ▸ h.2)

/-- In a duplicate-free list two elements cannot occur in both orders. -/
theorem sublist_pair_antisymm (L : List α) (hN : L.Nodup) (u v : α)
    (h1 : [u, v].Sublist L) (h2 : [v, u].Sublist L) : u = v := by
  induction L with
  | nil => cases h1
  | cons z L ih =>
    have hz : z ∉ L := (List.nodup_cons.mp hN).1
    have hN2 : L.Nodup := (List.nodup_cons.mp hN).2
    cases h1 with
    | cons _ h1a =>
      cases h2 with
      | cons _ h2a => exact ih hN2 h1a h2a
      | cons₂ h2a =>
        exfalso
        exact hz (h1a.subset (by simp))
    | cons₂ h1a =>
      cases h2 with
      | cons _ h2a =>
        exfalso
        exact hz (h2a.subset (by simp))
      | cons₂ h2a => rfl

/-- A pair the double loop enumerates occurs in list order. -/
theorem allPairs_sublist (l : List α) (x y : α) (h : (x, y) ∈ allPairs l) :
    [x, y].Sublist l := by
  induction l with
  | nil => cases h
  | cons z zs ih =>
    rw [allPairs] at h
    rcases List.mem_append.mp h with h1 | h1
    · obtain ⟨w, hw, heq⟩ := List.mem_map.mp h1
      cases heq
      exact (List.singleton_sublist.mpr hw).cons₂ x
    · exact (ih h1).cons z

theorem mem_mapSet (m : List (String × α)) (k : String) (v : α) (q : String × α)
    (h : q ∈ mapSet m k v) : q ∈ m ∨ q = (k, v) := by
  induction m with
  | nil =>
    rw [mapSet] at h
    exact Or.inr (List.mem_singleton.mp h)
  | cons p rest ih =>
    rw [mapSet] at h
    by_cases hp : p.1 = k
    · rw [if_pos hp] at h
      rcases List.mem_cons.mp h with h1 | h1
      · exact Or.inr h1
      · exact Or.inl (List.mem_cons_of_mem p h1)
    · rw [if_neg hp] at h
      rcases List.mem_cons.mp h with h1 | h1
      · exact Or.inl (h1 ▸ List.mem_cons_self p rest)
      · rcases ih h1 with h2 | h2
        · exact Or.inl (List.mem_cons_of_mem p h2)
        · exact Or.inr h2

theorem mapSet_keys (m : List (String × α)) (k : String) (v : α) :
    (mapSet m k v).map Prod.fst =
      if k ∈ m.map Prod.fst then m.map Prod.fst else m.map Prod.fst ++ [k] := by
  induction m with
  | nil => simp [mapSet]
  | cons p rest ih =>
    rw [mapSet]
    by_cases hp : p.1 = k
    · rw [if_pos hp]
      simp [hp]
    · rw [if_neg hp]
      by_cases hk : k ∈ rest.map Prod.fst
      · simp only [List.map_cons, ih, if_pos hk]
        rw [if_pos (List.mem_cons_of_mem p.1 hk)]
      · simp only [List.map_cons, ih, if_neg hk]
        have hne : k ∉ p.1 :: rest.map Prod.fst := by
          intro hmem
          rcases List.mem_cons.mp hmem with h1 | h1
          · exact hp h1.symm
          · exact hk h1
        rw [if_neg hne]
        simp

theorem storeWF_updatePrice (st : PriceState) (pd : PriceData)
    (h : StoreWF st.priceStore) (hpd : TickHF pd) :
    StoreWF (updatePrice st pd).priceStore := by
  unfold updatePrice
  refine ⟨?_, ?_⟩
  · intro p hp
    rcases mem_mapSet _ _ _ _ hp with h1 | h1
    · exact h.1 p h1
    · rw [h1]
      exact ⟨rfl, hpd⟩
  · rw [mapSet_keys]
    split_ifs with hk
    · exact h.2
    · rw [List.nodup_append]
      exact ⟨h.2, List.nodup_singleton _, by simpa using hk⟩

/-- Storing a tick leaves the name-pair sequence unchanged (overwrite in
place of an entry with the same names) or appends the new names. -/
theorem storeProj_mapSet (st : List (String × PriceData)) (pd : PriceData)
    (hWF : StoreKeyed st) (hpd : TickHF pd) :
    storeProj (mapSet st (getPriceKey pd.symbol pd.exchange) pd) = storeProj st ∨
    storeProj (mapSet st (getPriceKey pd.symbol pd.exchange) pd) =
      storeProj st ++ [(pd.symbol, pd.exchange)] := by
  induction st with
  | nil => exact Or.inr rfl
  | cons p rest ih =>
    rw [mapSet]
    by_cases hp : p.1 = getPriceKey pd.symbol pd.exchange
    · left
      have hkey := (hWF p (List.mem_cons_self p rest)).1
      have hhf := (hWF p (List.mem_cons_self p rest)).2
      have hinj : p.2.symbol = pd.symbol ∧ p.2.exchange = pd.exchange := by
        have := hkey.symm.trans hp
        exact sep_pair_inj _ _ _ _ hhf.1 hpd.1 this
      rw [if_pos hp]
      unfold storeProj
      simp only [List.map_cons]
      rw [hinj.1, hinj.2]
    · rw [if_neg hp]
      have hrest : StoreKeyed rest := fun q hq => hWF q (List.mem_cons_of_mem p hq)
      rcases ih hrest with h1 | h1
      · left
        unfold storeProj at h1 ⊢
        simp only [List.map_cons, h1]
      · right
        unfold storeProj at h1 ⊢
        simp only [List.map_cons, h1]
        rfl

theorem pairOrd_updatePrice (st : PriceState) (pd : PriceData) (s ea eb : String)
    (hWF : StoreKeyed st.priceStore) (hpd : TickHF pd)
    (h : PairOrd st.priceStore s ea eb) :
    PairOrd (updatePrice st pd).priceStore s ea eb := by
  unfold updatePrice
  unfold PairOrd at h ⊢
  rcases storeProj_mapSet st.priceStore pd hWF hpd with he | he
  · rw [he]
    exact h
  · rw [he]
    exact h.trans (List.sublist_append_left _ _)


/-! Stage 3: shape of the validated opportunities a scan emits -/

theorem calc_timestamp (a b : PriceData) (now : ℤ) :
    (calculateArbitrageOpportunity a b now).timestamp = now := by
  unfold calculateArbitrageOpportunity
  rcases ha : a.price with _ | qa <;> rcases hb : b.price with _ | qb <;>
    simp only
  split_ifs <;> rfl

/-- A validated opportunity in cooldown has a zero or expired slot. -/
theorem isValid_cooldown (cfg : ArbitrageConfig) (R : List (String × ℤ))
    (now : ℤ) (o : ArbOpp) (v : ℤ)
    (h : isValidArbitrageOpportunity cfg R now o = true)
    (hv : mapGet R (alertKey o) = some v) :
    v = 0 ∨ cooldownMs cfg ≤ now - v := by
  by_cases hv0 : v = 0
  · exact Or.inl hv0
  · by_cases hcd : now - v < cooldownMs cfg
    · rw [isValid_false_of_cooldown cfg R now o v hv hv0 hcd] at h
      cases h
    · exact Or.inr (le_of_not_lt hcd)

/-- A pair record that passes validation took the valid branch, whose name
fields are copied from the two price entries. -/
theorem calc_valid_fields (cfg : ArbitrageConfig) (R : List (String × ℤ))
    (now : ℤ) (a b : PriceData)
    (h : isValidArbitrageOpportunity cfg R now
      (calculateArbitrageOpportunity a b now) = true) :
    (calculateArbitrageOpportunity a b now).symbol = a.symbol ∧
    (calculateArbitrageOpportunity a b now).exchangeA = a.exchange ∧
    (calculateArbitrageOpportunity a b now).exchangeB = b.exchange := by
  rcases ha : a.price with _ | qa <;> rcases hb : b.price with _ | qb <;>
    simp only [calculateArbitrageOpportunity, ha, hb] at h ⊢
  · exact absurd h (by simp [isValidArbitrageOpportunity])
  · exact absurd h (by simp [isValidArbitrageOpportunity])
  · exact absurd h (by simp [isValidArbitrageOpportunity])
  · split_ifs at h ⊢ with hle
    · exact absurd h (by simp [isValidArbitrageOpportunity])
    · exact ⟨rfl, rfl, rfl⟩
    · exact ⟨rfl, rfl, rfl⟩

theorem mem_getAllPrices_symbol (ps : PriceState) (s : String) (x : PriceData)
    (h : x ∈ getAllPricesForSymbol ps s) : x.symbol = s := by
  unfold getAllPricesForSymbol at h
  obtain ⟨p, hp, hpx⟩ := List.mem_map.mp h
  have := List.of_mem_filter hp
  rw [← hpx]
  simpa using this

theorem getAllPrices_sublist (ps : PriceState) (s : String) :
    (getAllPricesForSymbol ps s).Sublist (ps.priceStore.map Prod.snd) :=
  List.Sublist.map Prod.snd (List.filter_sublist ps.priceStore)

/-- Every opportunity the find pass returns is the pair record of two price
entries of one instrument, taken in store order. -/
theorem find_members (cfg : ArbitrageConfig) (st : SysState) (now : ℤ) :
    ∀ o ∈ findArbitrageOpportunities cfg st now,
      ∃ a b : PriceData,
        [a, b].Sublist (st.prices.priceStore.map Prod.snd) ∧
        b.symbol = a.symbol ∧
        o = calculateArbitrageOpportunity a b now := by
  unfold findArbitrageOpportunities
  suffices h : ∀ (symbols : List String) (acc : List ArbOpp),
      (∀ o ∈ acc, ∃ a b : PriceData,
        [a, b].Sublist (st.prices.priceStore.map Prod.snd) ∧
        b.symbol = a.symbol ∧
        o = calculateArbitrageOpportunity a b now) →
      ∀ o ∈ symbols.foldl (fun opportunities symbol =>
          let prices := getAllPricesForSymbol st.prices symbol
          if prices.length < 2 then opportunities
          else
            let freshPrices := prices.filter
              (fun price => !(isPriceStale st.prices symbol price.exchange now))
            if freshPrices.length < 2 then opportunities
            else
              opportunities ++
                ((allPairs freshPrices).map
                  (fun pq => calculateArbitrageOpportunity pq.1 pq.2 now)).filter
                  (isValidArbitrageOpportunity cfg st.recentAlerts now)) acc,
        ∃ a b : PriceData,
          [a, b].Sublist (st.prices.priceStore.map Prod.snd) ∧
          b.symbol = a.symbol ∧
          o = calculateArbitrageOpportunity a b now by
    exact h cfg.tradingPairs [] (by intro o ho; cases ho)
  intro symbols
  induction symbols with
  | nil => intro acc hacc o ho; exact hacc o ho
  | cons symbol rest ih =>
    intro acc hacc o ho
    rw [List.foldl_cons] at ho
    refine ih _ ?_ o ho
    intro o2 ho2
    simp only at ho2
    by_cases h1 : (getAllPricesForSymbol st.prices symbol).length < 2
    · rw [if_pos h1] at ho2
      exact hacc o2 ho2
    · rw [if_neg h1] at ho2
      by_cases h2 : ((getAllPricesForSymbol st.prices symbol).filter
          (fun price => !(isPriceStale st.prices symbol price.exchange now))).length < 2
      · rw [if_pos h2] at ho2
        exact hacc o2 ho2
      · rw [if_neg h2] at ho2
        rcases List.mem_append.mp ho2 with h3 | h3
        · exact hacc o2 h3
        · have h4 := List.mem_of_mem_filter h3
          obtain ⟨pq, hpq, hcalc⟩ := List.mem_map.mp h4
          have hpq2 : (pq.1, pq.2) ∈ allPairs ((getAllPricesForSymbol st.prices symbol).filter
              (fun price => !(isPriceStale st.prices symbol price.exchange now))) := by
            rw [Prod.mk.eta]
            exact hpq
          have hsub1 := allPairs_sublist _ pq.1 pq.2 hpq2
          have hmem1 : pq.1 ∈ getAllPricesForSymbol st.prices symbol :=
            List.mem_of_mem_filter (hsub1.subset (by simp))
          have hmem2 : pq.2 ∈ getAllPricesForSymbol st.prices symbol :=
            List.mem_of_mem_filter (hsub1.subset (by simp))
          refine ⟨pq.1, pq.2, ?_, ?_, hcalc.symm⟩
          · exact (hsub1.trans (List.filter_sublist _)).trans
              (getAllPrices_sublist st.prices symbol)
          · rw [mem_getAllPrices_symbol _ _ _ hmem1, mem_getAllPrices_symbol _ _ _ hmem2]


/-! Stage 4: the cooldown gap invariant of engine traces -/

/-- Consecutive alert times keep at least the cooldown between them. -/
def gapOK (cd : ℤ) (l : List ℤ) : Prop := l.Pairwise (fun x y => x + cd ≤ y)

/-- Operation with dash-free names. -/
def opHF : Op → Prop
  | Op.tick pd => TickHF pd
  | Op.scan _ => True

/-- Scan times along a trace are positive and nondecreasing, starting from
the given lower bound. -/
def ScanTimesOK : ℤ → List Op → Prop
  | _, [] => True
  | t, Op.tick _ :: rest => ScanTimesOK t rest
  | t, Op.scan n :: rest => t ≤ n ∧ 0 < n ∧ ScanTimesOK n rest

/-- Trace invariant, t bounding every recorded alert time: slot values are
positive and at most t, every enqueued OPEN_OR_UPDATE event has dash-free
names, a covering cooldown slot under its unsorted key, and its venue order
realized in the price store, events of one ordered triple keep the cooldown
gap, and the store is well formed. -/
def StInv (cfg : ArbitrageConfig) (st : SysState) (t : ℤ) : Prop :=
  (∀ k v, mapGet st.recentAlerts k = some v → 0 < v ∧ v ≤ t) ∧
  (∀ o ∈ openEvents st.queue,
    OppHF o ∧
    (∃ v, mapGet st.recentAlerts (alertKey o) = some v ∧ o.timestamp ≤ v) ∧
    PairOrd st.prices.priceStore o.symbol o.exchangeA o.exchangeB) ∧
  (∀ a b c, gapOK (cooldownMs cfg)
    ((tripleEvents a b c st.queue).map (fun o => o.timestamp))) ∧
  StoreWF st.prices.priceStore

/-- Invariant carried through the per-opportunity fold of one scan: R0 is
the cooldown map validation ran against, P0 the (unchanged) price state. -/
def FoldInv (cfg : ArbitrageConfig) (R0 : List (String × ℤ)) (P0 : PriceState)
    (now : ℤ) (s : SysState) : Prop :=
  s.prices = P0 ∧
  (∀ k v, mapGet s.recentAlerts k = some v → 0 < v ∧ v ≤ now) ∧
  (∀ o ∈ openEvents s.queue,
    OppHF o ∧
    (∃ v, mapGet s.recentAlerts (alertKey o) = some v ∧ o.timestamp ≤ v) ∧
    PairOrd P0.priceStore o.symbol o.exchangeA o.exchangeB) ∧
  (∀ a b c, gapOK (cooldownMs cfg)
    ((tripleEvents a b c s.queue).map (fun o => o.timestamp))) ∧
  (∀ k, mapGet s.recentAlerts k = mapGet R0 k ∨ mapGet s.recentAlerts k = some now) ∧
  (∀ o : ArbOpp, OppHF o →
    mapGet s.recentAlerts (alertKey o) ≠ mapGet R0 (alertKey o) →
    mapGet s.activeOpportunities (generateOpportunityId o) ≠ none)

theorem closeProcessStep_prices (cfg : ArbitrageConfig) (s : SysState)
    (c : ClosedOpp) : (closeProcessStep cfg s c).prices = s.prices := by
  unfold closeProcessStep processClosedOpportunityStep
  split_ifs <;> rfl

theorem closePass_prices (cfg : ArbitrageConfig) (l : List ClosedOpp)
    (s : SysState) : (l.foldl (closeProcessStep cfg) s).prices = s.prices := by
  induction l generalizing s with
  | nil => rfl
  | cons c rest ih => rw [List.foldl_cons, ih, closeProcessStep_prices]

theorem checkCloses_prices (cfg : ArbitrageConfig) (st : SysState) (now : ℤ) :
    (checkForClosedOpportunities cfg st now).prices = st.prices := by
  unfold checkForClosedOpportunities
  split_ifs
  · rfl
  · exact closePass_prices cfg _ _

theorem closeProcessStep_openEvents (cfg : ArbitrageConfig) (s : SysState)
    (c : ClosedOpp) : openEvents (closeProcessStep cfg s c).queue = openEvents s.queue := by
  unfold closeProcessStep processClosedOpportunityStep
  split_ifs
  · rfl
  · simp only
    rw [openEvents_append, openEvents_close, List.append_nil]

theorem closePass_openEvents (cfg : ArbitrageConfig) (l : List ClosedOpp)
    (s : SysState) :
    openEvents ((l.foldl (closeProcessStep cfg) s).queue) = openEvents s.queue := by
  induction l generalizing s with
  | nil => rfl
  | cons c rest ih => rw [List.foldl_cons, ih, closeProcessStep_openEvents]

theorem checkCloses_openEvents (cfg : ArbitrageConfig) (st : SysState) (now : ℤ) :
    openEvents (checkForClosedOpportunities cfg st now).queue = openEvents st.queue := by
  unfold checkForClosedOpportunities
  split_ifs
  · rfl
  · exact closePass_openEvents cfg _ _

theorem alertKey_inj_triple (o o2 : ArbOpp) (h1 : OppHF o) (h2 : OppHF o2)
    (h : alertKey o = alertKey o2) :
    o.symbol = o2.symbol ∧ o.exchangeA = o2.exchangeA ∧ o.exchangeB = o2.exchangeB :=
  alertKeyParts_inj _ _ _ _ _ _ h1.1 h1.2.1 h2.1 h2.2.1 h

theorem generateOpportunityId_congr (o o2 : ArbOpp) (hs : o.symbol = o2.symbol)
    (ha : o.exchangeA = o2.exchangeA) (hb : o.exchangeB = o2.exchangeB) :
    generateOpportunityId o = generateOpportunityId o2 := by
  unfold generateOpportunityId
  rw [hs, ha, hb]

theorem mapGet_mapSet_not_none (m : List (String × α)) (k k2 : String) (v : α)
    (h : mapGet m k2 ≠ none) : mapGet (mapSet m k v) k2 ≠ none := by
  by_cases hk : k = k2
  · subst hk
    rw [mapGet_mapSet_self]
    simp
  · rw [mapGet_mapSet_ne _ _ _ _ hk]
    exact h

theorem tripleEvents_snoc_open (a b c : String) (q : List QueueJob)
    (o : ArbOpp) (p : ℤ) :
    tripleEvents a b c (q ++ [QueueJob.processOpportunity o p]) =
      tripleEvents a b c q ++
        (if o.symbol == a && o.exchangeA == b && o.exchangeB == c
          then [o] else []) := by
  unfold tripleEvents
  rw [openEvents_append, List.filter_append, openEvents_open]
  cases h : (o.symbol == a && o.exchangeA == b && o.exchangeB == c) <;>
    simp [List.filter, h]

/-- An event of the exact triple of o carries the alert key of o. -/
theorem tripleEvents_key (a b c : String) (q : List QueueJob) (e : ArbOpp)
    (he : e ∈ tripleEvents a b c q) :
    e ∈ openEvents q ∧ e.symbol = a ∧ e.exchangeA = b ∧ e.exchangeB = c := by
  unfold tripleEvents at he
  refine ⟨List.mem_of_mem_filter he, ?_⟩
  have := List.of_mem_filter he
  simp only [Bool.and_eq_true, beq_iff_eq] at this
  exact ⟨this.1.1, this.1.2, this.2⟩


theorem alertKey_congr (o o2 : ArbOpp) (hs : o.symbol = o2.symbol)
    (ha : o.exchangeA = o2.exchangeA) (hb : o.exchangeB = o2.exchangeB) :
    alertKey o = alertKey o2 := by
  unfold alertKey
  rw [hs, ha, hb]

/-- Common shape of the two enqueueing branches of
processArbitrageOpportunity: slot write, queue append, active-map write. -/
theorem foldInv_enqueue (cfg : ArbitrageConfig) (R0 : List (String × ℤ))
    (P0 : PriceState) (now : ℤ) (s s2 : SysState) (o : ArbOpp) (prio : ℤ)
    (hI : FoldInv cfg R0 P0 now s)
    (hnow : 0 < now)
    (hHF : OppHF o) (hts : o.timestamp = now)
    (hPO : PairOrd P0.priceStore o.symbol o.exchangeA o.exchangeB)
    (hgap : ∀ e ∈ tripleEvents o.symbol o.exchangeA o.exchangeB s.queue,
      e.timestamp + cooldownMs cfg ≤ now)
    (hRA2 : s2.recentAlerts = mapSet s.recentAlerts (alertKey o) now)
    (hQ2 : s2.queue = s.queue ++ [QueueJob.processOpportunity o prio])
    (hP2 : s2.prices = s.prices)
    (act2 : ActiveOpp)
    (hA2 : s2.activeOpportunities =
      mapSet s.activeOpportunities (generateOpportunityId o) act2) :
    FoldInv cfg R0 P0 now s2 := by
  obtain ⟨hPr, hRA, hEV, hPW, hR0, hAct⟩ := hI
  refine ⟨hP2.trans hPr, ?_, ?_, ?_, ?_, ?_⟩
  · intro k v hv
    rw [hRA2] at hv
    by_cases hk : alertKey o = k
    · subst hk
      rw [mapGet_mapSet_self] at hv
      cases hv
      exact ⟨hnow, le_refl now⟩
    · rw [mapGet_mapSet_ne _ _ _ _ hk] at hv
      exact hRA k v hv
  · intro e he
    rw [hQ2, openEvents_append, openEvents_open] at he
    rcases List.mem_append.mp he with he1 | he1
    · obtain ⟨h1, ⟨v, hv, hvts⟩, h3⟩ := hEV e he1
      refine ⟨h1, ?_, h3⟩
      rw [hRA2]
      by_cases hk : alertKey o = alertKey e
      · refine ⟨now, ?_, ?_⟩
        · rw [← hk, mapGet_mapSet_self]
        · exact hvts.trans (hRA _ _ hv).2
      · exact ⟨v, by rw [mapGet_mapSet_ne _ _ _ _ hk]; exact hv, hvts⟩
    · cases List.mem_singleton.mp he1
      refine ⟨hHF, ⟨now, ?_, ?_⟩, hPO⟩
      · rw [hRA2, mapGet_mapSet_self]
      · rw [hts]
  · intro a b c
    rw [hQ2, tripleEvents_snoc_open]
    cases hm : (o.symbol == a && o.exchangeA == b && o.exchangeB == c) with
    | false =>
      simp only [hm, Bool.false_eq_true, if_false, List.append_nil]
      exact hPW a b c
    | true =>
      simp only [hm, if_true]
      unfold gapOK
      rw [List.map_append, List.pairwise_append]
      refine ⟨hPW a b c, ?_, ?_⟩
      · exact List.pairwise_singleton _ _
      · intro x hx y hy
        simp only [List.map_cons, List.map_nil, List.mem_singleton] at hy
        subst hy
        rw [hts]
        obtain ⟨e, he, hex⟩ := List.mem_map.mp hx
        rw [← hex]
        have hmp : o.symbol = a ∧ o.exchangeA = b ∧ o.exchangeB = c := by
          simpa [Bool.and_eq_true, beq_iff_eq, and_assoc] using hm
        exact hgap e (by rw [hmp.1, hmp.2.1, hmp.2.2]; exact he)
  · intro k
    rw [hRA2]
    by_cases hk : alertKey o = k
    · subst hk
      rw [mapGet_mapSet_self]
      exact Or.inr rfl
    · rw [mapGet_mapSet_ne _ _ _ _ hk]
      exact hR0 k
  · intro o2 hHF2 hne
    rw [hRA2] at hne
    by_cases hk : alertKey o = alertKey o2
    · obtain ⟨hs, ha, hb⟩ := alertKey_inj_triple o o2 hHF hHF2 hk
      rw [← generateOpportunityId_congr o o2 hs ha hb, hA2, mapGet_mapSet_self]
      exact fun h => Option.noConfusion h
    · rw [mapGet_mapSet_ne _ _ _ _ hk] at hne
      rw [hA2]
      exact mapGet_mapSet_not_none _ _ _ _ (hAct o2 hHF2 hne)


/-- One processed opportunity preserves the fold invariant. -/
theorem foldInv_step (cfg : ArbitrageConfig) (R0 : List (String × ℤ))
    (P0 : PriceState) (now : ℤ) (s : SysState) (o : ArbOpp)
    (hR0RA : ∀ k v, mapGet R0 k = some v → 0 < v ∧ v ≤ now)
    (hnow : 0 < now)
    (hI : FoldInv cfg R0 P0 now s)
    (hHF : OppHF o) (hts : o.timestamp = now)
    (hPO : PairOrd P0.priceStore o.symbol o.exchangeA o.exchangeB)
    (hval : isValidArbitrageOpportunity cfg R0 now o = true) :
    FoldInv cfg R0 P0 now (processArbitrageOpportunity cfg s o now) := by
  have hIc := hI
  obtain ⟨hPr, hRA, hEV, hPW, hR0, hAct⟩ := hIc
  have hkey_of_triple : ∀ e ∈ tripleEvents o.symbol o.exchangeA o.exchangeB s.queue,
      alertKey e = alertKey o ∧ e ∈ openEvents s.queue := by
    intro e he
    obtain ⟨heq, hsa, hab, hbb⟩ := tripleEvents_key _ _ _ _ e he
    exact ⟨alertKey_congr e o hsa hab hbb, heq⟩
  have hnoev : mapGet s.recentAlerts (alertKey o) = none →
      tripleEvents o.symbol o.exchangeA o.exchangeB s.queue = [] := by
    intro hnone
    rw [List.eq_nil_iff_forall_not_mem]
    intro e he
    obtain ⟨hke, heq⟩ := hkey_of_triple e he
    obtain ⟨_, ⟨v, hv, _⟩, _⟩ := hEV e heq
    rw [hke, hnone] at hv
    cases hv
  have hbound : ∀ v, mapGet s.recentAlerts (alertKey o) = some v →
      ∀ e ∈ tripleEvents o.symbol o.exchangeA o.exchangeB s.queue, e.timestamp ≤ v := by
    intro v hv e he
    obtain ⟨hke, heq⟩ := hkey_of_triple e he
    obtain ⟨_, ⟨v2, hv2, hts2⟩, _⟩ := hEV e heq
    rw [hke, hv] at hv2
    cases hv2
    exact hts2
  cases hact : mapGet s.activeOpportunities (generateOpportunityId o) with
  | none =>
    have hgap : ∀ e ∈ tripleEvents o.symbol o.exchangeA o.exchangeB s.queue,
        e.timestamp + cooldownMs cfg ≤ now := by
      cases hslot : mapGet s.recentAlerts (alertKey o) with
      | none =>
        intro e he
        rw [hnoev hslot] at he
        cases he
      | some v =>
        have hsame : mapGet R0 (alertKey o) = some v := by
          by_cases hch : mapGet s.recentAlerts (alertKey o) = mapGet R0 (alertKey o)
          · rw [← hch, hslot]
          · exact absurd hact (hAct o hHF hch)
        have hpos := (hR0RA _ _ hsame).1
        rcases isValid_cooldown cfg R0 now o v hval hsame with h0 | hcd
        · exfalso
          omega
        · intro e he
          have := hbound v hslot e he
          omega
    simp only [processArbitrageOpportunity, hact]
    exact foldInv_enqueue cfg R0 P0 now s _ o _ hI hnow hHF hts hPO hgap
      rfl rfl rfl _ rfl
  | some act =>
    cases hslot : mapGet s.recentAlerts (alertKey o) with
    | none =>
      have hgap : ∀ e ∈ tripleEvents o.symbol o.exchangeA o.exchangeB s.queue,
          e.timestamp + cooldownMs cfg ≤ now := by
        intro e he
        rw [hnoev hslot] at he
        cases he
      simp only [processArbitrageOpportunity, hact, hslot, if_true]
      exact foldInv_enqueue cfg R0 P0 now s _ o _ hI hnow hHF hts hPO hgap
        rfl rfl rfl _ rfl
    | some lastAlert =>
      by_cases hc : (lastAlert = 0 ∨ cooldownMs cfg ≤ now - lastAlert)
      · have hgap : ∀ e ∈ tripleEvents o.symbol o.exchangeA o.exchangeB s.queue,
            e.timestamp + cooldownMs cfg ≤ now := by
          have hpos := (hRA _ _ hslot).1
          rcases hc with h0 | hcd
          · exfalso
            omega
          · intro e he
            have := hbound lastAlert hslot e he
            omega
        simp only [processArbitrageOpportunity, hact, hslot, decide_eq_true hc, if_true]
        exact foldInv_enqueue cfg R0 P0 now s _ o _ hI hnow hHF hts hPO hgap
          rfl rfl rfl _ rfl
      · simp only [processArbitrageOpportunity, hact, hslot, decide_eq_false hc,
          Bool.false_eq_true, if_false]
        exact ⟨hPr, hRA, hEV, hPW, hR0,
          fun o2 h2 hne => mapGet_mapSet_not_none _ _ _ _ (hAct o2 h2 hne)⟩


/-- The whole per-scan fold preserves the fold invariant. -/
theorem foldInv_fold (cfg : ArbitrageConfig) (R0 : List (String × ℤ))
    (P0 : PriceState) (now : ℤ) (l : List ArbOpp) (s : SysState)
    (hR0RA : ∀ k v, mapGet R0 k = some v → 0 < v ∧ v ≤ now)
    (hnow : 0 < now)
    (hl : ∀ o ∈ l, OppHF o ∧ o.timestamp = now ∧
      PairOrd P0.priceStore o.symbol o.exchangeA o.exchangeB ∧
      isValidArbitrageOpportunity cfg R0 now o = true)
    (hI : FoldInv cfg R0 P0 now s) :
    FoldInv cfg R0 P0 now
      (l.foldl (fun s2 o => processArbitrageOpportunity cfg s2 o now) s) := by
  induction l generalizing s with
  | nil => exact hI
  | cons o rest ih =>
    rw [List.foldl_cons]
    refine ih _ (fun o2 ho2 => hl o2 (List.mem_cons_of_mem o ho2)) ?_
    obtain ⟨h1, h2, h3, h4⟩ := hl o (List.mem_cons_self o rest)
    exact foldInv_step cfg R0 P0 now s o hR0RA hnow hI h1 h2 h3 h4

/-- One scan preserves the trace invariant, moving the bound to scan time. -/
theorem stInv_scan (cfg : ArbitrageConfig) (st : SysState) (t now : ℤ)
    (hI : StInv cfg st t) (ht : t ≤ now) (hnow : 0 < now) :
    StInv cfg (detectArbitrageOpportunities cfg st now) now := by
  obtain ⟨hRA, hEV, hPW, hWF⟩ := hI
  set st1 := checkForClosedOpportunities cfg st now with hst1
  have hra1 : st1.recentAlerts = st.recentAlerts := checkCloses_recentAlerts cfg st now
  have hpr1 : st1.prices = st.prices := checkCloses_prices cfg st now
  have hoe1 : openEvents st1.queue = openEvents st.queue := checkCloses_openEvents cfg st now
  have hI1 : FoldInv cfg st1.recentAlerts st.prices now st1 := by
    refine ⟨hpr1, ?_, ?_, ?_, fun k => Or.inl rfl, ?_⟩
    · intro k v hv
      rw [hra1] at hv
      obtain ⟨h1, h2⟩ := hRA k v hv
      exact ⟨h1, h2.trans ht⟩
    · intro o ho
      rw [hoe1] at ho
      obtain ⟨h1, h2, h3⟩ := hEV o ho
      rw [hra1]
      exact ⟨h1, h2, h3⟩
    · intro a b c
      rw [tripleEvents_of_openEvents_eq a b c _ _ hoe1]
      exact hPW a b c
    · intro o2 h2 hne
      exact absurd rfl hne
  have hmem : ∀ o ∈ findArbitrageOpportunities cfg st1 now,
      OppHF o ∧ o.timestamp = now ∧
      PairOrd st.prices.priceStore o.symbol o.exchangeA o.exchangeB ∧
      isValidArbitrageOpportunity cfg st1.recentAlerts now o = true := by
    intro o ho
    have hvalid := find_all_valid cfg st1 now o ho
    obtain ⟨a, b, hsub, hbs, hcalc⟩ := find_members cfg st1 now o ho
    rw [hpr1] at hsub
    subst hcalc
    obtain ⟨hsy, hea, heb⟩ := calc_valid_fields cfg st1.recentAlerts now a b hvalid
    have hamem : a ∈ st.prices.priceStore.map Prod.snd := hsub.subset (by simp)
    have hbmem : b ∈ st.prices.priceStore.map Prod.snd := hsub.subset (by simp)
    have haHF : TickHF a := by
      obtain ⟨p, hp, hpa⟩ := List.mem_map.mp hamem
      exact hpa ▸ (hWF.1 p hp).2
    have hbHF : TickHF b := by
      obtain ⟨p, hp, hpb⟩ := List.mem_map.mp hbmem
      exact hpb ▸ (hWF.1 p hp).2
    refine ⟨⟨?_, ?_, ?_⟩, calc_timestamp a b now, ?_, hvalid⟩
    · rw [hsy]
      exact haHF.1
    · rw [hea]
      exact haHF.2
    · rw [heb]
      exact hbHF.2
    · unfold PairOrd
      rw [hsy, hea, heb]
      have hproj : storeProj st.prices.priceStore =
          (st.prices.priceStore.map Prod.snd).map (fun pd => (pd.symbol, pd.exchange)) := by
        unfold storeProj
        rw [List.map_map]
        rfl
      rw [hproj]
      have h2 := List.Sublist.map (fun pd : PriceData => (pd.symbol, pd.exchange)) hsub
      simpa [hbs] using h2
  have hfold := foldInv_fold cfg st1.recentAlerts st.prices now
    (findArbitrageOpportunities cfg st1 now) st1
    (by
      intro k v hv
      rw [hra1] at hv
      obtain ⟨h1, h2⟩ := hRA k v hv
      exact ⟨h1, h2.trans ht⟩)
    hnow hmem hI1
  have hdet : detectArbitrageOpportunities cfg st now =
      (findArbitrageOpportunities cfg st1 now).foldl
        (fun s2 o => processArbitrageOpportunity cfg s2 o now) st1 := rfl
  rw [hdet]
  obtain ⟨hPr2, hRA2, hEV2, hPW2, _, _⟩ := hfold
  refine ⟨hRA2, ?_, hPW2, ?_⟩
  · intro o ho
    obtain ⟨h1, h2, h3⟩ := hEV2 o ho
    rw [hPr2]
    exact ⟨h1, h2, h3⟩
  · rw [hPr2]
    exact hWF

/-- A stored tick preserves the trace invariant. -/
theorem stInv_tick (cfg : ArbitrageConfig) (st : SysState) (t : ℤ) (pd : PriceData)
    (hI : StInv cfg st t) (hpd : TickHF pd) :
    StInv cfg { st with prices := updatePrice st.prices pd } t := by
  obtain ⟨hRA, hEV, hPW, hWF⟩ := hI
  refine ⟨hRA, ?_, hPW, storeWF_updatePrice st.prices pd hWF hpd⟩
  intro o ho
  obtain ⟨h1, h2, h3⟩ := hEV o ho
  exact ⟨h1, h2, pairOrd_updatePrice st.prices pd _ _ _ hWF.1 hpd h3⟩

theorem stInv_empty (cfg : ArbitrageConfig) : StInv cfg emptySysState 0 := by
  refine ⟨?_, ?_, ?_, ?_⟩
  · intro k v hv
    cases hv
  · intro o ho
    cases ho
  · intro a b c
    simp [gapOK, tripleEvents, openEvents, emptySysState]
  · exact ⟨fun p hp => absurd hp (List.not_mem_nil p), List.nodup_nil⟩

/-- The invariant holds along every dash-free trace with positive
nondecreasing scan times. -/
theorem stInv_trace_aux (cfg : ArbitrageConfig) (ops : List Op) :
    ∀ (st : SysState) (t : ℤ), StInv cfg st t → ScanTimesOK t ops →
      (∀ op ∈ ops, opHF op) →
      ∃ t2, StInv cfg (ops.foldl (step cfg) st) t2 := by
  induction ops with
  | nil =>
    intro st t hI _ _
    exact ⟨t, hI⟩
  | cons op rest ih =>
    intro st t hI hscan hhf
    rw [List.foldl_cons]
    cases op with
    | tick pd =>
      have hpd : TickHF pd := hhf (Op.tick pd) (List.mem_cons_self _ _)
      exact ih _ t (stInv_tick cfg st t pd hI hpd) hscan
        (fun op2 ho => hhf op2 (List.mem_cons_of_mem _ ho))
    | scan n =>
      obtain ⟨h1, h2, h3⟩ := hscan
      exact ih _ n (stInv_scan cfg st t n hI h1 h2) h3
        (fun op2 ho => hhf op2 (List.mem_cons_of_mem _ ho))


/-! C1 concrete trace: the bybit tick arrives first, so the pair loop visits
(bybit, binance) and the cooldown entry is keyed by that unsorted order. -/

def c1TickBybit : PriceData :=
  { symbol := "BTC/USDT", exchange := "bybit", price := some 101, timestamp := 1000 }

def c1TickBinance : PriceData :=
  { symbol := "BTC/USDT", exchange := "binance", price := some 100, timestamp := 1000 }

def c1Trace : List Op :=
  [Op.tick c1TickBybit, Op.tick c1TickBinance, Op.scan 1000]

def c1Store : PriceState :=
  { priceStore := [("BTC/USDT-bybit", c1TickBybit), ("BTC/USDT-binance", c1TickBinance)]
    priceHistory := [("BTC/USDT-bybit", [c1TickBybit]), ("BTC/USDT-binance", [c1TickBinance])] }

/-- The opportunity of the opening scan, venues in store order. -/
def c1Opp : ArbOpp :=
  { symbol := "BTC/USDT", exchangeA := "bybit", exchangeB := "binance"
    priceA := some 101, priceB := some 100, priceDifference := some 1
    priceDifferencePercent := some (200 / 201), profit := some 1000
    action := Action.BUY_B_SELL_A, timestamp := 1000 }

def c1Act : ActiveOpp :=
  { symbol := "BTC/USDT", exchangeA := "bybit", exchangeB := "binance"
    priceA := some 101, priceB := some 100, priceDifference := some 1
    priceDifferencePercent := some (200 / 201), profit := some 1000
    action := Action.BUY_B_SELL_A, timestamp := 1000
    id := "BTC/USDT-binance-bybit", openTimestamp := 1000
    lastUpdatedTimestamp := 1000, peakPriceDifferencePercent := 200 / 201
    peakProfit := 1000, peakTimestamp := 1000, alertsSent := 1 }

/-- Final state of the C1 trace: the active record sits under the sorted id
while the cooldown entry sits under the unsorted key. -/
def c1S : SysState :=
  { prices := c1Store
    recentAlerts := [("BTC/USDT-bybit-binance", 1000)]
    activeOpportunities := [("BTC/USDT-binance-bybit", c1Act)]
    opportunityHistory := [c1Opp]
    closedOpportunityHistory := []
    queue := [QueueJob.processOpportunity c1Opp 9] }

theorem c1_ticks :
    step defaultConfig (step defaultConfig emptySysState (Op.tick c1TickBybit))
      (Op.tick c1TickBinance) =
    { prices := c1Store, recentAlerts := [], activeOpportunities := []
      opportunityHistory := [], closedOpportunityHistory := [], queue := [] } := by
  rfl

set_option maxHeartbeats 1000000 in
theorem c1_scan :
    step defaultConfig
      { prices := c1Store, recentAlerts := [], activeOpportunities := []
        opportunityHistory := [], closedOpportunityHistory := [], queue := [] }
      (Op.scan 1000) = c1S := by
  have hid : generateOpportunityIdParts "BTC/USDT" "bybit" "binance" =
    "BTC/USDT-binance-bybit" := by rfl
  have e1 : |(101:ℚ) - 100| = 1 := by norm_num
  have e3 : ((1:ℚ) * 1000) = 1000 := by norm_num
  have hp : ((2:ℚ) / (101 + 100) * 100) = 200 / 201 := by norm_num
  have hp2 : ((1:ℚ) / ((101 + 100) / 2) * 100) = 200 / 201 := by norm_num
  have c1 : ((101:ℚ) ≤ 0 ∨ (100:ℚ) ≤ 0) = False := by norm_num
  have c2 : ((101:ℚ) < 100) = False := by norm_num
  have c3 : ((200:ℚ)/201 < 7/10) = False := by norm_num
  have c4 : ((1000:ℚ) < 10) = False := by norm_num
  have c5 : (⌊(200:ℚ)/201 * 10⌋ : ℤ) = 9 := by norm_num
  simp [step, detectArbitrageOpportunities, checkForClosedOpportunities,
    closeScanStep, closeProcessStep,
    findArbitrageOpportunities, getAllPricesForSymbol, isPriceStale_eq, getPrice,
    mapGet, mapSet, getPriceKey, allPairs, calculateArbitrageOpportunity,
    isValidArbitrageOpportunity, alertKey, alertKeyParts, cooldownMs,
    processArbitrageOpportunity, generateOpportunityId, addToHistory,
    jsFloorPriority, jsOrZero, defaultConfig, arbMaxHistorySize, c1Store,
    c1TickBybit, c1TickBinance, c1S, c1Opp, c1Act, List.filter_cons, List.filter_nil,
    hid, e1, e3, hp, hp2, c1, c2, c3, c4, c5]

theorem c1_run : runTrace defaultConfig c1Trace = c1S := by
  show step defaultConfig
      (step defaultConfig (step defaultConfig emptySysState (Op.tick c1TickBybit))
        (Op.tick c1TickBinance))
      (Op.scan 1000) = c1S
  rw [c1_ticks, c1_scan]

/-- C1 counterexample: the alert time is NOT recorded under the opportunity
id.  After an opening scan whose ticks arrived bybit before binance, the
cooldown map holds the unsorted key BTC/USDT-bybit-binance and a lookup
under the id BTC/USDT-binance-bybit finds nothing; the key is not invariant
under swapping the two venues. -/
theorem cooldown_key_not_opportunity_id :
    openEvents (runTrace defaultConfig c1Trace).queue = [c1Opp] ∧
    generateOpportunityId c1Opp = "BTC/USDT-binance-bybit" ∧
    alertKey c1Opp = "BTC/USDT-bybit-binance" ∧
    mapGet (runTrace defaultConfig c1Trace).recentAlerts "BTC/USDT-binance-bybit" = none ∧
    mapGet (runTrace defaultConfig c1Trace).recentAlerts "BTC/USDT-bybit-binance" = some 1000 ∧
    alertKeyParts "BTC/USDT" "bybit" "binance" ≠ alertKeyParts "BTC/USDT" "binance" "bybit" := by
  rw [c1_run]
  exact ⟨rfl, rfl, rfl, rfl, rfl, by decide⟩

/-- C1 amended: although the cooldown key is the unsorted venue pair rather
than the opportunity id, the per-id alert rate limit still holds on every
trace with dash-free names and positive nondecreasing scan times, because
the venue order of a pair is frozen by the price store (cleanupStalePrices
is never invoked) and so every scan derives the same key for the same id:
no two OPEN_OR_UPDATE events of one opportunity id are ever enqueued less
than AlertCooldown apart. -/
theorem no_reopen_within_cooldown (cfg : ArbitrageConfig) (ops : List Op)
    (id : String)
    (hhf : ∀ op ∈ ops, opHF op) (hmono : ScanTimesOK 0 ops) :
    gapOK (cooldownMs cfg)
      (((openEvents (runTrace cfg ops).queue).filter
          (fun o => generateOpportunityId o == id)).map (fun o => o.timestamp)) := by
  have hrt : runTrace cfg ops = ops.foldl (step cfg) emptySysState := rfl
  rw [hrt]
  obtain ⟨t, hRA, hEV, hPW, hWF⟩ := stInv_trace_aux cfg ops emptySysState 0
    (stInv_empty cfg) hmono hhf
  by_cases hnil : (openEvents (ops.foldl (step cfg) emptySysState).queue).filter
      (fun o => generateOpportunityId o == id) = []
  · rw [hnil]
    exact List.Pairwise.nil
  · obtain ⟨o0, ho0⟩ := List.exists_mem_of_ne_nil _ hnil
    have ho0E : o0 ∈ openEvents (ops.foldl (step cfg) emptySysState).queue :=
      List.mem_of_mem_filter ho0
    have ho0id : generateOpportunityId o0 = id := by
      have := List.of_mem_filter ho0
      simpa using this
    have hNodup := storeProj_nodup _ hWF
    have hcong : ∀ o ∈ openEvents (ops.foldl (step cfg) emptySysState).queue,
        (generateOpportunityId o == id) =
        (o.symbol == o0.symbol && o.exchangeA == o0.exchangeA &&
          o.exchangeB == o0.exchangeB) := by
      intro o ho
      obtain ⟨hHFo, _, hPOo⟩ := hEV o ho
      obtain ⟨hHF0, _, hPO0⟩ := hEV o0 ho0E
      rw [Bool.eq_iff_iff]
      simp only [Bool.and_eq_true, beq_iff_eq, and_assoc]
      constructor
      · intro hid
        have hgid : generateOpportunityIdParts o.symbol o.exchangeA o.exchangeB =
            generateOpportunityIdParts o0.symbol o0.exchangeA o0.exchangeB := by
          have h1 : generateOpportunityId o = generateOpportunityId o0 :=
            hid.trans ho0id.symm
          exact h1
        obtain ⟨hs, hsp⟩ := generateOpportunityIdParts_inj _ _ _ _ _ _
          hHFo.1 hHFo.2.1 hHFo.2.2 hHF0.1 hHF0.2.1 hHF0.2.2 hgid
        rcases sortPair_eq_cases _ _ _ _ hsp with ⟨ha, hb⟩ | ⟨ha, hb⟩
        · exact ⟨hs, ha, hb⟩
        · have hPO0x : PairOrd (ops.foldl (step cfg) emptySysState).prices.priceStore
              o.symbol o.exchangeB o.exchangeA := by
            rw [hs, hb, ha]
            exact hPO0
          have heq := sublist_pair_antisymm _ hNodup
            (o.symbol, o.exchangeA) (o.symbol, o.exchangeB) hPOo hPO0x
          have hab : o.exchangeA = o.exchangeB := congrArg Prod.snd heq
          exact ⟨hs, hab.trans hb, hab.symm.trans ha⟩
      · intro h3
        rw [generateOpportunityId_congr o o0 h3.1 h3.2.1 h3.2.2]
        exact ho0id
    have hfe : (openEvents (ops.foldl (step cfg) emptySysState).queue).filter
        (fun o => generateOpportunityId o == id) =
        tripleEvents o0.symbol o0.exchangeA o0.exchangeB
          (ops.foldl (step cfg) emptySysState).queue := by
      unfold tripleEvents
      exact List.filter_congr hcong
    rw [hfe]
    exact hPW o0.symbol o0.exchangeA o0.exchangeB

theorem no_reopen_within_cooldown_witness :
    (∀ op ∈ c1Trace, opHF op) ∧ ScanTimesOK 0 c1Trace ∧
    gapOK (cooldownMs defaultConfig)
      (((openEvents (runTrace defaultConfig c1Trace).queue).filter
          (fun o => generateOpportunityId o == "BTC/USDT-binance-bybit")).map
        (fun o => o.timestamp)) := by
  have h1 : ∀ op ∈ c1Trace, opHF op := by
    intro op hop
    fin_cases hop
    · exact ⟨by decide, by decide⟩
    · exact ⟨by decide, by decide⟩
    · trivial
  have h2 : ScanTimesOK 0 c1Trace := by
    show (0:ℤ) ≤ 1000 ∧ (0:ℤ) < 1000 ∧ True
    norm_num
  exact ⟨h1, h2,
    no_reopen_within_cooldown defaultConfig c1Trace "BTC/USDT-binance-bybit" h1 h2⟩

end FAB
